import Mathlib

/-!
Verification of fixbibtex.py against its specification.

Shallow embedding of src/fixbibtex.py (revision with asyncio + fallback DOI
search + colorized output).  The program reads a BibTeX file, queries the
Crossref API for each article entry, and merges the best candidate record
into a copy of each entry.

Modelling conventions:
* Python strings are Lean Strings / List Char.
* difflib.SequenceMatcher.ratio() returns a float 2.0*M/T; we compute the
  exact rational 2*M/T.  The only comparisons performed on it by the
  program are with the literal 0.75 = 3/4 (exactly representable); since
  |2M/T - 3/4| is either 0 or at least 1/(4T), double rounding can never
  flip those comparisons, so the rational model is comparison-faithful.
* pybtex Entry objects are modelled by the `Entry` structure.  `fields`
  and `persons` are insertion-ordered string-keyed dictionaries, modelled
  as association lists (the program only ever uses lower-case keys, so the
  case-insensitivity of pybtex field dictionaries is never exercised).
* Python exceptions (KeyError / IndexError / AttributeError) that are not
  caught by the program are modelled with the `Except String` monad.
* The Crossref HTTP backend is external; lookups are oracle functions
  passed as parameters.
-/

namespace Fixbibtex

/-! ## difflib.SequenceMatcher

`similar` (fixbibtex.py line 224-225) calls
`SequenceMatcher(None, a.lower(), b.lower()).ratio()`.  The matcher is
embedded below, specialized to `isjunk = None`: then `bjunk` is the empty
set, so the two junk-extension while-loops of `find_longest_match` never
execute (their `isbjunk(...)` conjunct is always false) and are omitted,
and `not isbjunk(...)` in the first two extension loops is always true.
`autojunk` is left at its default `True`.
-/

/-- Number of occurrences of `c` in `b` (length of the index list built for
`c` by `SequenceMatcher.__chain_b`). -/
def strCount (b : List Char) (c : Char) : Nat :=
  (b.filter (fun x => x == c)).length

/-- Per `__chain_b`: element `c` is "popular" (autojunk) iff `len(b) >= 200` and
its index list has more than `len(b) // 100 + 1` entries. -/
def isPopular (b : List Char) (c : Char) : Prop :=
  200 ≤ b.length ∧ b.length / 100 + 1 < strCount b c

instance (b : List Char) (c : Char) : Decidable (isPopular b c) := by
  unfold isPopular; infer_instance

/-- Per `__chain_b`: `b2j[c]` is the ascending list of positions of `c` in `b`,
with popular elements purged (their keys deleted, so lookups yield the
default `[]`, which is also what `b2j.get` yields for absent elements). -/
def b2j (b : List Char) (c : Char) : List Nat :=
  if isPopular b c then []
  else (List.range b.length).filter (fun j => b.getD j ' ' == c)

/-- The running `(besti, bestj, bestsize)` triple of `find_longest_match`. -/
structure FlmBest where
  besti : Nat
  bestj : Nat
  bestsize : Nat
deriving Repr, DecidableEq

/-- Inner loop of `find_longest_match` over `b2j.get(a[i], [])` for one row
`i`: `j < blo` is `continue`, `j >= bhi` is `break` (the lists are
ascending), otherwise `k = newj2len[j] = j2len.get(j-1, 0) + 1` and the
best triple is updated when `k > bestsize`.  Maps are total functions with
default 0 (values stored are always >= 1, so 0 exactly encodes "absent";
Python's lookup of key `-1` when `j = 0` also yields the default 0, hence
the `j = 0` guard).  Returns the built `newj2len` and the updated best. -/
def flmInner (blo bhi i : Nat) (jold : Nat → Nat) :
    List Nat → (Nat → Nat) → FlmBest → ((Nat → Nat) × FlmBest)
  | [], jnew, best => (jnew, best)
  | j :: js, jnew, best =>
    if j < blo then flmInner blo bhi i jold js jnew best
    else if bhi ≤ j then (jnew, best)
    else
      let k := (if j = 0 then 0 else jold (j - 1)) + 1
      let jnew' : Nat → Nat := fun x => if x = j then k else jnew x
      let best' : FlmBest :=
        if best.bestsize < k then ⟨i + 1 - k, j + 1 - k, k⟩ else best
      flmInner blo bhi i jold js jnew' best'

/-- Outer loop of `find_longest_match` over `i in range(alo, ahi)`; each row
starts from the empty `newj2len` and the previous row's map `j2len`. -/
def flmOuter (a : List Char) (bj : Char → List Nat) (blo bhi : Nat) :
    List Nat → (Nat → Nat) → FlmBest → FlmBest
  | [], _, best => best
  | i :: is, j2len, best =>
    let p := flmInner blo bhi i j2len (bj (a.getD i ' ')) (fun _ => 0) best
    flmOuter a bj blo bhi is p.1 p.2

/-- First extension while-loop of `find_longest_match` (with `bjunk` empty):
`while besti > alo and bestj > blo and a[besti-1] == b[bestj-1]`, moving the
block one step left each iteration.  Structural fuel: each iteration
decreases `besti` by exactly 1, so calling with `fuel = besti` makes fuel
run out exactly when `besti = 0`, where the `alo < besti` guard is false
anyway: the fuelled function equals the while-loop. -/
def extendBwd (a b : List Char) (alo blo : Nat) :
    Nat → Nat → Nat → Nat → (Nat × Nat × Nat)
  | 0, besti, bestj, bestsize => (besti, bestj, bestsize)
  | fuel + 1, besti, bestj, bestsize =>
    if alo < besti ∧ blo < bestj ∧ a.getD (besti - 1) ' ' = b.getD (bestj - 1) ' ' then
      extendBwd a b alo blo fuel (besti - 1) (bestj - 1) (bestsize + 1)
    else (besti, bestj, bestsize)

/-- Second extension while-loop (with `bjunk` empty):
`while besti+bestsize < ahi and bestj+bestsize < bhi and a[besti+bestsize]
== b[bestj+bestsize]: bestsize += 1`.  Structural fuel: `besti + bestsize`
grows by 1 each iteration and the loop stops once it reaches `ahi`, so with
`fuel = ahi` the guard is already false whenever fuel runs out: the fuelled
function equals the while-loop. -/
def extendFwd (a b : List Char) (ahi bhi besti bestj : Nat) :
    Nat → Nat → Nat
  | 0, bestsize => bestsize
  | fuel + 1, bestsize =>
    if besti + bestsize < ahi ∧ bestj + bestsize < bhi ∧
        a.getD (besti + bestsize) ' ' = b.getD (bestj + bestsize) ' ' then
      extendFwd a b ahi bhi besti bestj fuel (bestsize + 1)
    else bestsize

/-- The method `SequenceMatcher.find_longest_match(alo, ahi, blo, bhi)` with
`isjunk = None`: dynamic-programming scan, then the two (non-junk)
extension loops; the two junk-extension loops are no-ops since `bjunk` is
empty.  Indexing `a[i]` / `b[j]` is modelled by `getD _ ' '`; all indices
are in range whenever Python's are. -/
def find_longest_match (a b : List Char) (bj : Char → List Nat)
    (alo ahi blo bhi : Nat) : Nat × Nat × Nat :=
  let best := flmOuter a bj blo bhi (List.range' alo (ahi - alo)) (fun _ => 0)
    ⟨alo, blo, 0⟩
  let e := extendBwd a b alo blo best.besti best.besti best.bestj best.bestsize
  (e.1, e.2.1, extendFwd a b ahi bhi e.1 e.2.1 ahi e.2.2)

/-- Total size of the matching blocks of `get_matching_blocks` (all that
`ratio` consumes: collapsing adjacent blocks and the final dummy block do
not change the sum of sizes, and the order in which the work queue is
processed does not change the set of blocks).  The queue recursion is
expressed directly, with the same guards as the source; structural fuel:
each recursion strictly shrinks `(ahi - alo) + (bhi - blo)` because a found
block has `k >= 1` and `alo <= i`, `i + k <= ahi`, `blo <= j`,
`j + k <= bhi`, so the top-level fuel `len(a) + len(b) + 1` never runs
out. -/
def matchingSum (a b : List Char) (bj : Char → List Nat) :
    Nat → Nat → Nat → Nat → Nat → Nat
  | 0, _, _, _, _ => 0
  | fuel + 1, alo, ahi, blo, bhi =>
    match find_longest_match a b bj alo ahi blo bhi with
    | (i, j, k) =>
      if k = 0 then 0
      else
        k + (if alo < i ∧ blo < j then matchingSum a b bj fuel alo i blo j else 0)
          + (if i + k < ahi ∧ j + k < bhi then
              matchingSum a b bj fuel (i + k) ahi (j + k) bhi else 0)

/-- The value `SequenceMatcher(None, a, b).ratio()` as an exact rational:
`_calculate_ratio(matches, len(a) + len(b))`, which is
`2.0 * matches / length` when the length is nonzero and `1.0` otherwise. -/
def ratioQ (a b : List Char) : ℚ :=
  let m := matchingSum a b (b2j b) (a.length + b.length + 1)
    0 a.length 0 b.length
  if a.length + b.length = 0 then 1
  else (2 * m : ℚ) / ((a.length : ℚ) + (b.length : ℚ))

/-- fixbibtex.py lines 224-225:
`def similar(a, b): return SequenceMatcher(None, a.lower(), b.lower()).ratio()`.
`str.lower()` is modelled as lowercasing character by character
(`Char.toLower` agrees with it on ASCII, which covers everything the
program compares). -/
def similar (a b : String) : ℚ :=
  ratioQ (a.data.map Char.toLower) (b.data.map Char.toLower)

/-! ## Data model: pybtex entries and Crossref candidate records -/

/-- A pybtex `Person`.  The program only ever constructs persons from a
name string (line 213/216) and stores them; we track that string (pybtex's
name-part parsing is external and never observed by the program). -/
structure Person where
  name : String
deriving Repr, DecidableEq

/-- A pybtex `Entry`: type tag, field dictionary, person lists keyed by
role, plus the two dynamic attributes the script attaches (`similarity`,
line 192; `relevance`, line 220).  `none` models "attribute absent", which
is the state of every entry coming out of the parser.  Dictionaries are
insertion-ordered association lists; the program only uses lower-case
keys, so pybtex's case-insensitive field access never matters. -/
structure Entry where
  type : String
  fields : List (String × String)
  persons : List (String × List Person)
  similarity : Option ℚ := none
  relevance : Option ℚ := none
deriving Repr, DecidableEq

/-- Python dict lookup `d.get(k)` on an association list (first match). -/
def dictGet {β : Type} : List (String × β) → String → Option β
  | [], _ => none
  | (k', v) :: rest, k => if k' = k then some v else dictGet rest k

/-- Python `d.get(k, dflt)`. -/
def dictGetD {β : Type} (m : List (String × β)) (k : String) (dflt : β) : β :=
  (dictGet m k).getD dflt

/-- Python `d[k] = v`: replace the value at an existing key in place
(keeping its position), or append a new binding at the end. -/
def dictSet {β : Type} : List (String × β) → String → β → List (String × β)
  | [], k, v => [(k, v)]
  | (k', v') :: rest, k, v =>
    if k' = k then (k', v) :: rest else (k', v') :: dictSet rest k v

/-- Python `d[k]` (KeyError when absent). -/
def pyDictGet {β : Type} (m : List (String × β)) (k : String) :
    Except String β :=
  match dictGet m k with
  | some v => .ok v
  | none => .error ("KeyError: " ++ k)

/-- Python `xs[0]` (IndexError when empty). -/
def pyHead {α : Type} : List α → Except String α
  | [] => .error "IndexError"
  | x :: _ => .ok x

/-- Python attribute read `obj.attr` on a dynamic attribute
(AttributeError when it was never assigned). -/
def pyAttr {α : Type} (attr : String) : Option α → Except String α
  | some v => .ok v
  | none => .error ("AttributeError: " ++ attr)

/-- One author record inside a Crossref work message. -/
structure CrossrefAuthor where
  family : Option String := none
  given : Option String := none
  name : Option String := none
deriving Repr, DecidableEq

/-- A Crossref work message (the candidate record), restricted to the keys
the program reads.  `none` = key absent.  `issue`, `page` and `volume`
arrive as JSON strings, on which Python's `str(...)` is the identity, so
they are modelled already stringified; the `published-*` values are the
`date-parts` lists of lists of integers; `score` is the relevance float,
modelled as a rational (it is never compared, only stored). -/
structure CrossrefRef where
  containerTitle : Option (List String) := none
  issue : Option String := none
  page : Option String := none
  title : Option (List String) := none
  url : Option String := none
  volume : Option String := none
  publishedPrint : Option (List (List Int)) := none
  publishedOnline : Option (List (List Int)) := none
  doi : Option String := none
  issn : Option (List String) := none
  author : Option (List CrossrefAuthor) := none
  score : Option ℚ := none
deriving Repr, DecidableEq

/-! ## The program's functions (fixbibtex.py) -/

/-- Lines 208-216: build one pybtex `Person` from a candidate author
record: `"Family, Given"`, the family name alone when there is no given
name, and `author['name']` (the organization name; KeyError when that key
is also absent) when there is no family name. -/
def crossrefPerson (a : CrossrefAuthor) : Except String Person :=
  match a.family with
  | some fam =>
    match a.given with
    | some g => .ok ⟨fam ++ ", " ++ g⟩
    | none => .ok ⟨fam⟩
  | none =>
    match a.name with
    | some n => .ok ⟨n⟩
    | none => .error "KeyError: name"

/-- Lines 185-186: `entry.fields['journal'] = ref['container-title'][0]`
when the key is present. -/
def updJournal (ref : CrossrefRef) (e : Entry) : Except String Entry :=
  match ref.containerTitle with
  | some ct => do
    let j ← pyHead ct
    .ok { e with fields := dictSet e.fields "journal" j }
  | none => .ok e

/-- Lines 187-188: `entry.fields['number'] = str(ref['issue'])` (JSON
string, `str` is the identity). -/
def updNumber (ref : CrossrefRef) (e : Entry) : Except String Entry :=
  match ref.issue with
  | some issue => .ok { e with fields := dictSet e.fields "number" issue }
  | none => .ok e

/-- Python `str.replace('-', '--')` (the only `replace` call the program makes):
every hyphen is doubled; with a one-character pattern, Python's
left-to-right non-overlapping replacement is exactly per-character
substitution. -/
def doubleHyphens : List Char → List Char
  | [] => []
  | c :: rest =>
    if c = '-' then '-' :: '-' :: doubleHyphens rest
    else c :: doubleHyphens rest

/-- The expression `str(ref['page']).replace('-', '--')` as a String function. -/
def replaceHyphens (s : String) : String := ⟨doubleHyphens s.data⟩

/-- Lines 189-190: `entry.fields['pages'] = str(ref['page']).replace('-', '--')`. -/
def updPages (ref : CrossrefRef) (e : Entry) : Except String Entry :=
  match ref.page with
  | some page => .ok { e with fields := dictSet e.fields "pages" (replaceHyphens page) }
  | none => .ok e

/-- Lines 191-193: `if 'title' in ref and ref['title']:` — the similarity
attribute is computed against the CURRENT entry title
(`entry.fields['title']`, KeyError when absent), then the title field is
replaced by `ref['title'][0]`. -/
def updTitle (ref : CrossrefRef) (e : Entry) : Except String Entry :=
  match ref.title with
  | some (t :: _) => do
    let old ← pyDictGet e.fields "title"
    .ok { e with similarity := some (similar old t),
                 fields := dictSet e.fields "title" t }
  | _ => .ok e

/-- Lines 194-195: `entry.fields['url'] = ref['URL']`. -/
def updUrl (ref : CrossrefRef) (e : Entry) : Except String Entry :=
  match ref.url with
  | some u => .ok { e with fields := dictSet e.fields "url" u }
  | none => .ok e

/-- Lines 196-197: `entry.fields['volume'] = str(ref['volume'])`. -/
def updVolume (ref : CrossrefRef) (e : Entry) : Except String Entry :=
  match ref.volume with
  | some v => .ok { e with fields := dictSet e.fields "volume" v }
  | none => .ok e

/-- Lines 198-201: year from `date-parts[0][0]` (IndexError on malformed
dates), print date preferred over online date (`elif`). -/
def updYear (ref : CrossrefRef) (e : Entry) : Except String Entry :=
  match ref.publishedPrint with
  | some dp => do
    let row ← pyHead dp
    let y ← pyHead row
    .ok { e with fields := dictSet e.fields "year" (toString y) }
  | none =>
    match ref.publishedOnline with
    | some dp => do
      let row ← pyHead dp
      let y ← pyHead row
      .ok { e with fields := dictSet e.fields "year" (toString y) }
    | none => .ok e

/-- Lines 202-203: `entry.fields['doi'] = ref['DOI']`. -/
def updDoi (ref : CrossrefRef) (e : Entry) : Except String Entry :=
  match ref.doi with
  | some doi => .ok { e with fields := dictSet e.fields "doi" doi }
  | none => .ok e

/-- Lines 204-205: `entry.fields['issn'] = ref['ISSN'][0]`. -/
def updIssn (ref : CrossrefRef) (e : Entry) : Except String Entry :=
  match ref.issn with
  | some issn => do
    let i ← pyHead issn
    .ok { e with fields := dictSet e.fields "issn" i }
  | none => .ok e

/-- Lines 207-217: the author for-loop, which appends one `Person` per
candidate author in order (both branches of the family/organization `if`
append). -/
def buildPersons : List CrossrefAuthor → Except String (List Person)
  | [] => .ok []
  | a :: rest => do
    let p ← crossrefPerson a
    let ps ← buildPersons rest
    .ok (p :: ps)

/-- Lines 206-219: run the author loop, then rebind the WHOLE persons dict
to `{'author': persons}` — but only when the existing author list is not
longer than the candidate's (line 218). -/
def updAuthor (ref : CrossrefRef) (e : Entry) : Except String Entry :=
  match ref.author with
  | some authors => do
    let ps ← buildPersons authors
    if (dictGetD e.persons "author" []).length ≤ ps.length then
      .ok { e with persons := [("author", ps)] }
    else
      .ok e
  | none => .ok e

/-- Lines 183-221: `update_entry_from_crossref(ref, entry)`, the sequence
of the per-line-group blocks above, finished by the line-220 relevance
annotation `entry.relevance = ref.get('score', 100)`.
Line 184 takes a SHALLOW `copy(entry)`: the copy and the input share the
`fields` dictionary object, so every `entry.fields[...] = ...` write is
visible through the input entry as well (made explicit by
`originalAfterUpdate`); `persons`, `similarity` and `relevance` are
rebound on the copy only. -/
def update_entry_from_crossref (ref : CrossrefRef) (entry : Entry) :
    Except String Entry := do
  let e1 ← updJournal ref entry
  let e2 ← updNumber ref e1
  let e3 ← updPages ref e2
  let e4 ← updTitle ref e3
  let e5 ← updUrl ref e4
  let e6 ← updVolume ref e5
  let e7 ← updYear ref e6
  let e8 ← updDoi ref e7
  let e9 ← updIssn ref e8
  let e10 ← updAuthor ref e9
  return { e10 with relevance := some (ref.score.getD 100) }

/-- The state of the INPUT entry after `update_entry_from_crossref`
returns: since line 184 is a shallow copy, the input's `fields` dict is
the very object the function wrote into, while its `persons` dict and its
attribute set were untouched (only the copy's were rebound). -/
def originalAfterUpdate (ref : CrossrefRef) (entry : Entry) :
    Except String Entry :=
  (update_entry_from_crossref ref entry).map fun e => { entry with fields := e.fields }

/-- Lines 170-180: `find_crossref_doi`.  The `cr.works(ids=doi)` call is
external: the oracle returns `some r` exactly when the call succeeds with
`status == 'ok'` and a truthy message `r`; exceptions and bad statuses
both make the function return None, folded into the oracle's `none`. -/
def find_crossref_doi (doiLookup : String → Option CrossrefRef)
    (doi : String) : Option CrossrefRef :=
  if doi = "" then none else doiLookup doi

/-- Outcome of the external `cr.works(query=..., filter=...)` call made by
`find_crossref` for one entry. -/
inductive LookupOutcome where
  /-- the call raised; caught at lines 161-164 -/
  | error (msg : String)
  /-- the call succeeded but `ref['message']['items']` is empty (line 165):
  the function falls through and returns None -/
  | empty
  /-- the call succeeded and `r` is the first ranked item (line 166) -/
  | found (r : CrossrefRef)

/-- What `find_crossref` hands back to the merge loop: Python's `None`,
its `(None, None, None)` error triple, or `(key, entry, first)`. -/
inductive FindResult where
  | noneResult
  | errorTriple
  | triple (key : String) (entry : Entry) (r : CrossrefRef)

/-- Lines 147-167: `find_crossref((entry, key, pbar))`.  The query/filter
derivation (lines 150-157) reads `entry.fields['title']` OUTSIDE the
try-block (an entry without a title raises KeyError, which propagates);
the derived query and filters are pure functions of the entry and
determine the external response, so the response is an oracle of
(key, entry).  The 0.1 s sleep and the progress-bar updates have no
observable effect on the result.  Returns the result together with the
console lines printed. -/
def find_crossref (lookup : String → Entry → LookupOutcome) (key : String)
    (entry : Entry) : Except String (FindResult × List String) := do
  let _query ← pyDictGet entry.fields "title"
  match lookup key entry with
  | .error msg =>
    .ok (.errorTriple, ["! Could not fetch " ++ key ++ " due to error: " ++ msg])
  | .empty => .ok (.noneResult, [])
  | .found r => .ok (.triple key entry r, [])

/-- Lines 113-138: the body of the merge loop for one gathered result.
Returns `some (key, stored_entry)` when line 138 runs, `none` when the
loop `continue`s, and `.error` when an uncaught Python exception aborts
the run.  Console lines are returned alongside. -/
def merge_result (doiLookup : String → Option CrossrefRef) :
    FindResult → Except String (Option (String × Entry) × List String)
  | .noneResult => .ok (none, [])    -- lines 113-114: `if result is None: continue`
  | .errorTriple => .ok (none, [])   -- lines 116-117: `if not ref: continue`
  | .triple key entry ref => do
    let doi_in_bibtex := dictGetD entry.fields "doi" ""      -- line 118
    let title_in_bibtex := dictGetD entry.fields "title" ""  -- line 119
    let new_entry ← update_entry_from_crossref ref entry     -- line 120
    -- the shallow copy inside update_entry_from_crossref mutated
    -- `entry.fields`; `entry` now shares the merged fields:
    let entryMut : Entry := { entry with fields := new_entry.fields }
    if new_entry.similarity.getD 0 < 3/4 then                -- line 121
      -- line 122 formats `new_entry.similarity` WITHOUT a default:
      -- AttributeError when the candidate had no (nonempty) title
      let _sim ← pyAttr "similarity" new_entry.similarity
      let warn := "! `" ++ key ++ "` has low similarity"
      if doi_in_bibtex ≠ "" then                             -- line 123
        match find_crossref_doi doiLookup doi_in_bibtex with -- line 125
        | some fb_ref => do
          let new_entry_fb ← update_entry_from_crossref fb_ref entryMut  -- line 127
          let fbTitle ← pyDictGet new_entry_fb.fields "title"            -- line 128
          if similar title_in_bibtex fbTitle < 3/4 then      -- line 129
            .ok (some (key, new_entry), [warn, "Not fixed"])
          else
            .ok (some (key, new_entry_fb), [warn, "Fixed"])  -- lines 132-133
        | none =>
          .ok (some (key, new_entry), [warn, "Wrong DOI!"])  -- line 135
      else
        .ok (some (key, new_entry),
          [warn, "No DOI available for fallback search."])   -- line 137
    else
      .ok (some (key, new_entry), [])

/-- Lines 99-144: `fix_bibtex`, per-entry observable behaviour.  Python
first fires one `find_crossref` per non-skipped entry into a thread pool
(in collection order) and then merges the gathered results in the same
order; each lookup is a pure function of its own (key, entry) and each
merge writes only its own key, so the batched run equals this sequential
fold entry by entry (console interleaving aside).  Any uncaught exception
(in a worker, re-raised by `gather`, or in the merge loop) aborts the
whole coroutine before `main` writes any file: `.error`.  Keys in
`bib.entries` are unique, so `bib.entries[key] = new_entry` replaces
exactly the entry being processed. -/
def fix_bibtex (lookup : String → Entry → LookupOutcome)
    (doiLookup : String → Option CrossrefRef) :
    List (String × Entry) → Except String (List (String × Entry) × List String)
  | [] => .ok ([], [])
  | (key, entry) :: rest => do
    -- line 107: skip non-articles and preprint-server URLs
    if entry.type != "article" ||
        decide ("rxiv.org".toList <:+: (dictGetD entry.fields "url" "").toList) then
      let (col, logs) ← fix_bibtex lookup doiLookup rest
      .ok ((key, entry) :: col, logs)
    else
      let (fr, logs1) ← find_crossref lookup key entry
      let (upd, logs2) ← merge_result doiLookup fr
      let (col, logs) ← fix_bibtex lookup doiLookup rest
      match upd with
      | some (k', e') => .ok ((k', e') :: col, logs1 ++ logs2 ++ logs)
      | none => .ok ((key, entry) :: col, logs1 ++ logs2 ++ logs)

/-! ## Dictionary lemmas -/

theorem dictGet_dictSet_self {β : Type} (m : List (String × β)) (k : String)
    (v : β) : dictGet (dictSet m k v) k = some v := by
  induction m with
  | nil => simp [dictSet, dictGet]
  | cons kv rest ih =>
    obtain ⟨k', v'⟩ := kv
    by_cases h : k' = k <;> simp [dictSet, dictGet, h, ih]

theorem dictGet_dictSet_ne {β : Type} (m : List (String × β)) {k k' : String}
    (v : β) (h : k ≠ k') : dictGet (dictSet m k v) k' = dictGet m k' := by
  induction m with
  | nil => simp [dictSet, dictGet, h]
  | cons kv rest ih =>
    obtain ⟨k'', v'⟩ := kv
    by_cases h2 : k'' = k <;> by_cases h3 : k'' = k' <;>
      simp_all [dictSet, dictGet]

theorem dictSet_eq_of_get {β : Type} {m : List (String × β)} {k : String}
    {v : β} (h : dictGet m k = some v) : dictSet m k v = m := by
  induction m with
  | nil => simp [dictGet] at h
  | cons kv rest ih =>
    obtain ⟨k', v'⟩ := kv
    by_cases h2 : k' = k
    · simp [dictGet, h2] at h
      simp [dictSet, h2, h]
    · simp [dictGet, h2] at h
      simp [dictSet, h2, ih h]

/-! ## Per-block characterizations of `update_entry_from_crossref` -/

theorem updJournal_cases {ref : CrossrefRef} {e m : Entry}
    (h : updJournal ref e = .ok m) :
    (ref.containerTitle = none ∧ m = e) ∨
    (∃ j rest, ref.containerTitle = some (j :: rest) ∧
      m = { e with fields := dictSet e.fields "journal" j }) := by
  unfold updJournal at h
  rcases hc : ref.containerTitle with _ | ct <;> rw [hc] at h
  · exact Or.inl ⟨rfl, by simpa using h.symm⟩
  · rcases ct with _ | ⟨j, rest⟩
    · simp [pyHead, Bind.bind, Except.bind] at h
    · exact Or.inr ⟨j, rest, rfl, by
        simpa [pyHead, Bind.bind, Except.bind] using h.symm⟩

theorem updNumber_cases {ref : CrossrefRef} {e m : Entry}
    (h : updNumber ref e = .ok m) :
    (ref.issue = none ∧ m = e) ∨
    (∃ issue, ref.issue = some issue ∧
      m = { e with fields := dictSet e.fields "number" issue }) := by
  unfold updNumber at h
  rcases hc : ref.issue with _ | issue <;> rw [hc] at h
  · exact Or.inl ⟨rfl, by simpa using h.symm⟩
  · exact Or.inr ⟨issue, rfl, by simpa using h.symm⟩

theorem updPages_cases {ref : CrossrefRef} {e m : Entry}
    (h : updPages ref e = .ok m) :
    (ref.page = none ∧ m = e) ∨
    (∃ page, ref.page = some page ∧
      m = { e with fields := dictSet e.fields "pages" (replaceHyphens page) }) := by
  unfold updPages at h
  rcases hc : ref.page with _ | page <;> rw [hc] at h
  · exact Or.inl ⟨rfl, by simpa using h.symm⟩
  · exact Or.inr ⟨page, rfl, by simpa using h.symm⟩

theorem updTitle_cases {ref : CrossrefRef} {e m : Entry}
    (h : updTitle ref e = .ok m) :
    ((ref.title = none ∨ ref.title = some []) ∧ m = e) ∨
    (∃ t ts old, ref.title = some (t :: ts) ∧
      dictGet e.fields "title" = some old ∧
      m = { e with similarity := some (similar old t),
                   fields := dictSet e.fields "title" t }) := by
  unfold updTitle at h
  rcases hc : ref.title with _ | tl <;> rw [hc] at h
  · exact Or.inl ⟨Or.inl rfl, by simpa using h.symm⟩
  · rcases tl with _ | ⟨t, ts⟩
    · exact Or.inl ⟨Or.inr rfl, by simpa using h.symm⟩
    · rcases ho : dictGet e.fields "title" with _ | old
      · simp [pyDictGet, ho, Bind.bind, Except.bind] at h
      · refine Or.inr ⟨t, ts, old, rfl, rfl, ?_⟩
        simpa [pyDictGet, ho, Bind.bind, Except.bind] using h.symm

theorem updUrl_cases {ref : CrossrefRef} {e m : Entry}
    (h : updUrl ref e = .ok m) :
    (ref.url = none ∧ m = e) ∨
    (∃ u, ref.url = some u ∧
      m = { e with fields := dictSet e.fields "url" u }) := by
  unfold updUrl at h
  rcases hc : ref.url with _ | u <;> rw [hc] at h
  · exact Or.inl ⟨rfl, by simpa using h.symm⟩
  · exact Or.inr ⟨u, rfl, by simpa using h.symm⟩

theorem updVolume_cases {ref : CrossrefRef} {e m : Entry}
    (h : updVolume ref e = .ok m) :
    (ref.volume = none ∧ m = e) ∨
    (∃ v, ref.volume = some v ∧
      m = { e with fields := dictSet e.fields "volume" v }) := by
  unfold updVolume at h
  rcases hc : ref.volume with _ | v <;> rw [hc] at h
  · exact Or.inl ⟨rfl, by simpa using h.symm⟩
  · exact Or.inr ⟨v, rfl, by simpa using h.symm⟩

theorem updYear_cases {ref : CrossrefRef} {e m : Entry}
    (h : updYear ref e = .ok m) :
    (ref.publishedPrint = none ∧ ref.publishedOnline = none ∧ m = e) ∨
    (∃ y row rows, ref.publishedPrint = some ((y :: row) :: rows) ∧
      m = { e with fields := dictSet e.fields "year" (toString y) }) ∨
    (ref.publishedPrint = none ∧
      ∃ y row rows, ref.publishedOnline = some ((y :: row) :: rows) ∧
      m = { e with fields := dictSet e.fields "year" (toString y) }) := by
  unfold updYear at h
  rcases hp : ref.publishedPrint with _ | dp <;> rw [hp] at h
  · rcases ho : ref.publishedOnline with _ | dp <;> rw [ho] at h
    · exact Or.inl ⟨rfl, rfl, by simpa using h.symm⟩
    · rcases dp with _ | ⟨row, rows⟩
      · simp [pyHead, Bind.bind, Except.bind] at h
      · rcases row with _ | ⟨y, row⟩
        · simp [pyHead, Bind.bind, Except.bind] at h
        · refine Or.inr (Or.inr ⟨rfl, y, row, rows, rfl, ?_⟩)
          simpa [pyHead, Bind.bind, Except.bind] using h.symm
  · rcases dp with _ | ⟨row, rows⟩
    · simp [pyHead, Bind.bind, Except.bind] at h
    · rcases row with _ | ⟨y, row⟩
      · simp [pyHead, Bind.bind, Except.bind] at h
      · refine Or.inr (Or.inl ⟨y, row, rows, rfl, ?_⟩)
        simpa [pyHead, Bind.bind, Except.bind] using h.symm

theorem updDoi_cases {ref : CrossrefRef} {e m : Entry}
    (h : updDoi ref e = .ok m) :
    (ref.doi = none ∧ m = e) ∨
    (∃ doi, ref.doi = some doi ∧
      m = { e with fields := dictSet e.fields "doi" doi }) := by
  unfold updDoi at h
  rcases hc : ref.doi with _ | doi <;> rw [hc] at h
  · exact Or.inl ⟨rfl, by simpa using h.symm⟩
  · exact Or.inr ⟨doi, rfl, by simpa using h.symm⟩

theorem updIssn_cases {ref : CrossrefRef} {e m : Entry}
    (h : updIssn ref e = .ok m) :
    (ref.issn = none ∧ m = e) ∨
    (∃ i rest, ref.issn = some (i :: rest) ∧
      m = { e with fields := dictSet e.fields "issn" i }) := by
  unfold updIssn at h
  rcases hc : ref.issn with _ | il <;> rw [hc] at h
  · exact Or.inl ⟨rfl, by simpa using h.symm⟩
  · rcases il with _ | ⟨i, rest⟩
    · simp [pyHead, Bind.bind, Except.bind] at h
    · exact Or.inr ⟨i, rest, rfl, by
        simpa [pyHead, Bind.bind, Except.bind] using h.symm⟩

theorem updAuthor_cases {ref : CrossrefRef} {e m : Entry}
    (h : updAuthor ref e = .ok m) :
    (ref.author = none ∧ m = e) ∨
    (∃ authors ps, ref.author = some authors ∧
      buildPersons authors = .ok ps ∧
      ((dictGetD e.persons "author" []).length ≤ ps.length ∧
        m = { e with persons := [("author", ps)] } ∨
       ps.length < (dictGetD e.persons "author" []).length ∧ m = e)) := by
  unfold updAuthor at h
  rcases hc : ref.author with _ | authors <;> rw [hc] at h
  · exact Or.inl ⟨rfl, by simpa using h.symm⟩
  · rcases hm : buildPersons authors with msg | ps
    · simp [hm, Bind.bind, Except.bind] at h
    · refine Or.inr ⟨authors, ps, rfl, hm, ?_⟩
      by_cases hlen : (dictGetD e.persons "author" []).length ≤ ps.length
      · exact Or.inl ⟨hlen, by
          simpa [hm, Bind.bind, Except.bind, hlen] using h.symm⟩
      · exact Or.inr ⟨by omega, by
          simpa [hm, Bind.bind, Except.bind, hlen] using h.symm⟩

/-- Decompose a successful `update_entry_from_crossref` into its chain of
successful blocks. -/
theorem update_chain {ref : CrossrefRef} {entry m : Entry}
    (h : update_entry_from_crossref ref entry = .ok m) :
    ∃ e1 e2 e3 e4 e5 e6 e7 e8 e9 e10,
      updJournal ref entry = .ok e1 ∧ updNumber ref e1 = .ok e2 ∧
      updPages ref e2 = .ok e3 ∧ updTitle ref e3 = .ok e4 ∧
      updUrl ref e4 = .ok e5 ∧ updVolume ref e5 = .ok e6 ∧
      updYear ref e6 = .ok e7 ∧ updDoi ref e7 = .ok e8 ∧
      updIssn ref e8 = .ok e9 ∧ updAuthor ref e9 = .ok e10 ∧
      m = { e10 with relevance := some (ref.score.getD 100) } := by
  unfold update_entry_from_crossref at h
  simp only [Bind.bind, Except.bind] at h
  rcases h1 : updJournal ref entry with msg | e1 <;> rw [h1] at h <;>
    simp only [] at h
  · exact Except.noConfusion h
  rcases h2 : updNumber ref e1 with msg | e2 <;> rw [h2] at h <;>
    simp only [] at h
  · exact Except.noConfusion h
  rcases h3 : updPages ref e2 with msg | e3 <;> rw [h3] at h <;>
    simp only [] at h
  · exact Except.noConfusion h
  rcases h4 : updTitle ref e3 with msg | e4 <;> rw [h4] at h <;>
    simp only [] at h
  · exact Except.noConfusion h
  rcases h5 : updUrl ref e4 with msg | e5 <;> rw [h5] at h <;>
    simp only [] at h
  · exact Except.noConfusion h
  rcases h6 : updVolume ref e5 with msg | e6 <;> rw [h6] at h <;>
    simp only [] at h
  · exact Except.noConfusion h
  rcases h7 : updYear ref e6 with msg | e7 <;> rw [h7] at h <;>
    simp only [] at h
  · exact Except.noConfusion h
  rcases h8 : updDoi ref e7 with msg | e8 <;> rw [h8] at h <;>
    simp only [] at h
  · exact Except.noConfusion h
  rcases h9 : updIssn ref e8 with msg | e9 <;> rw [h9] at h <;>
    simp only [] at h
  · exact Except.noConfusion h
  rcases h10 : updAuthor ref e9 with msg | e10 <;> rw [h10] at h <;>
    simp only [] at h
  · exact Except.noConfusion h
  simp only [pure, Except.pure, Except.ok.injEq] at h
  exact ⟨e1, e2, e3, e4, e5, e6, e7, e8, e9, e10,
    rfl, h2, h3, h4, h5, h6, h7, h8, h9, h10, h.symm⟩

/-- Recompose the chain: successful blocks yield a successful update. -/
theorem update_chain_construct {ref : CrossrefRef}
    {entry e1 e2 e3 e4 e5 e6 e7 e8 e9 e10 : Entry}
    (h1 : updJournal ref entry = .ok e1) (h2 : updNumber ref e1 = .ok e2)
    (h3 : updPages ref e2 = .ok e3) (h4 : updTitle ref e3 = .ok e4)
    (h5 : updUrl ref e4 = .ok e5) (h6 : updVolume ref e5 = .ok e6)
    (h7 : updYear ref e6 = .ok e7) (h8 : updDoi ref e7 = .ok e8)
    (h9 : updIssn ref e8 = .ok e9) (h10 : updAuthor ref e9 = .ok e10) :
    update_entry_from_crossref ref entry =
      .ok { e10 with relevance := some (ref.score.getD 100) } := by
  unfold update_entry_from_crossref
  simp only [Bind.bind, Except.bind]
  rw [h1]; simp only []
  rw [h2]; simp only []
  rw [h3]; simp only []
  rw [h4]; simp only []
  rw [h5]; simp only []
  rw [h6]; simp only []
  rw [h7]; simp only []
  rw [h8]; simp only []
  rw [h9]; simp only []
  rw [h10]
  rfl

/-! ## Frame and value lemmas for the update blocks -/

theorem updJournal_frame {ref : CrossrefRef} {e m : Entry}
    (h : updJournal ref e = .ok m) :
    m.type = e.type ∧ m.persons = e.persons ∧ m.similarity = e.similarity ∧
    ∀ k, k ≠ "journal" → dictGet m.fields k = dictGet e.fields k := by
  rcases updJournal_cases h with ⟨_, rfl⟩ | ⟨j, rest, hc, rfl⟩
  · exact ⟨rfl, rfl, rfl, fun k hk => rfl⟩
  · exact ⟨rfl, rfl, rfl, fun k hk => dictGet_dictSet_ne _ _ (Ne.symm hk)⟩

theorem updNumber_frame {ref : CrossrefRef} {e m : Entry}
    (h : updNumber ref e = .ok m) :
    m.type = e.type ∧ m.persons = e.persons ∧ m.similarity = e.similarity ∧
    ∀ k, k ≠ "number" → dictGet m.fields k = dictGet e.fields k := by
  rcases updNumber_cases h with ⟨_, rfl⟩ | ⟨s, hc, rfl⟩
  · exact ⟨rfl, rfl, rfl, fun k hk => rfl⟩
  · exact ⟨rfl, rfl, rfl, fun k hk => dictGet_dictSet_ne _ _ (Ne.symm hk)⟩

theorem updPages_frame {ref : CrossrefRef} {e m : Entry}
    (h : updPages ref e = .ok m) :
    m.type = e.type ∧ m.persons = e.persons ∧ m.similarity = e.similarity ∧
    ∀ k, k ≠ "pages" → dictGet m.fields k = dictGet e.fields k := by
  rcases updPages_cases h with ⟨_, rfl⟩ | ⟨p, hc, rfl⟩
  · exact ⟨rfl, rfl, rfl, fun k hk => rfl⟩
  · exact ⟨rfl, rfl, rfl, fun k hk => dictGet_dictSet_ne _ _ (Ne.symm hk)⟩

theorem updTitle_frame {ref : CrossrefRef} {e m : Entry}
    (h : updTitle ref e = .ok m) :
    m.type = e.type ∧ m.persons = e.persons ∧
    ∀ k, k ≠ "title" → dictGet m.fields k = dictGet e.fields k := by
  rcases updTitle_cases h with ⟨_, rfl⟩ | ⟨t, ts, old, hc, ho, rfl⟩
  · exact ⟨rfl, rfl, fun k hk => rfl⟩
  · exact ⟨rfl, rfl, fun k hk => dictGet_dictSet_ne _ _ (Ne.symm hk)⟩

theorem updUrl_frame {ref : CrossrefRef} {e m : Entry}
    (h : updUrl ref e = .ok m) :
    m.type = e.type ∧ m.persons = e.persons ∧ m.similarity = e.similarity ∧
    ∀ k, k ≠ "url" → dictGet m.fields k = dictGet e.fields k := by
  rcases updUrl_cases h with ⟨_, rfl⟩ | ⟨u, hc, rfl⟩
  · exact ⟨rfl, rfl, rfl, fun k hk => rfl⟩
  · exact ⟨rfl, rfl, rfl, fun k hk => dictGet_dictSet_ne _ _ (Ne.symm hk)⟩

theorem updVolume_frame {ref : CrossrefRef} {e m : Entry}
    (h : updVolume ref e = .ok m) :
    m.type = e.type ∧ m.persons = e.persons ∧ m.similarity = e.similarity ∧
    ∀ k, k ≠ "volume" → dictGet m.fields k = dictGet e.fields k := by
  rcases updVolume_cases h with ⟨_, rfl⟩ | ⟨v, hc, rfl⟩
  · exact ⟨rfl, rfl, rfl, fun k hk => rfl⟩
  · exact ⟨rfl, rfl, rfl, fun k hk => dictGet_dictSet_ne _ _ (Ne.symm hk)⟩

theorem updYear_frame {ref : CrossrefRef} {e m : Entry}
    (h : updYear ref e = .ok m) :
    m.type = e.type ∧ m.persons = e.persons ∧ m.similarity = e.similarity ∧
    ∀ k, k ≠ "year" → dictGet m.fields k = dictGet e.fields k := by
  rcases updYear_cases h with ⟨_, _, rfl⟩ | ⟨y, row, rows, hc, rfl⟩ |
    ⟨hp, y, row, rows, hc, rfl⟩
  · exact ⟨rfl, rfl, rfl, fun k hk => rfl⟩
  · exact ⟨rfl, rfl, rfl, fun k hk => dictGet_dictSet_ne _ _ (Ne.symm hk)⟩
  · exact ⟨rfl, rfl, rfl, fun k hk => dictGet_dictSet_ne _ _ (Ne.symm hk)⟩

theorem updDoi_frame {ref : CrossrefRef} {e m : Entry}
    (h : updDoi ref e = .ok m) :
    m.type = e.type ∧ m.persons = e.persons ∧ m.similarity = e.similarity ∧
    ∀ k, k ≠ "doi" → dictGet m.fields k = dictGet e.fields k := by
  rcases updDoi_cases h with ⟨_, rfl⟩ | ⟨d, hc, rfl⟩
  · exact ⟨rfl, rfl, rfl, fun k hk => rfl⟩
  · exact ⟨rfl, rfl, rfl, fun k hk => dictGet_dictSet_ne _ _ (Ne.symm hk)⟩

theorem updIssn_frame {ref : CrossrefRef} {e m : Entry}
    (h : updIssn ref e = .ok m) :
    m.type = e.type ∧ m.persons = e.persons ∧ m.similarity = e.similarity ∧
    ∀ k, k ≠ "issn" → dictGet m.fields k = dictGet e.fields k := by
  rcases updIssn_cases h with ⟨_, rfl⟩ | ⟨i, rest, hc, rfl⟩
  · exact ⟨rfl, rfl, rfl, fun k hk => rfl⟩
  · exact ⟨rfl, rfl, rfl, fun k hk => dictGet_dictSet_ne _ _ (Ne.symm hk)⟩

theorem updAuthor_frame {ref : CrossrefRef} {e m : Entry}
    (h : updAuthor ref e = .ok m) :
    m.type = e.type ∧ m.similarity = e.similarity ∧ m.fields = e.fields := by
  rcases updAuthor_cases h with ⟨_, rfl⟩ | ⟨authors, ps, hc, hm, hcase⟩
  · exact ⟨rfl, rfl, rfl⟩
  · rcases hcase with ⟨_, rfl⟩ | ⟨_, rfl⟩ <;> exact ⟨rfl, rfl, rfl⟩

/-- Fields outside the nine merge targets are never written by
`update_entry_from_crossref`. -/
theorem update_fields_frame {ref : CrossrefRef} {entry m : Entry}
    (h : update_entry_from_crossref ref entry = .ok m) :
    ∀ k, k ∉ ["journal", "number", "pages", "title", "url", "volume",
      "year", "doi", "issn"] →
      dictGet m.fields k = dictGet entry.fields k := by
  obtain ⟨e1, e2, e3, e4, e5, e6, e7, e8, e9, e10, h1, h2, h3, h4, h5, h6,
    h7, h8, h9, h10, hm⟩ := update_chain h
  intro k hk
  simp only [List.mem_cons, List.not_mem_nil, or_false, not_or] at hk
  obtain ⟨k1, k2, k3, k4, k5, k6, k7, k8, k9⟩ := hk
  have f10 := (updAuthor_frame h10).2.2
  calc dictGet m.fields k
      = dictGet e9.fields k := by rw [hm]; rw [f10]
    _ = dictGet e8.fields k := (updIssn_frame h9).2.2.2 k k9
    _ = dictGet e7.fields k := (updDoi_frame h8).2.2.2 k k8
    _ = dictGet e6.fields k := (updYear_frame h7).2.2.2 k k7
    _ = dictGet e5.fields k := (updVolume_frame h6).2.2.2 k k6
    _ = dictGet e4.fields k := (updUrl_frame h5).2.2.2 k k5
    _ = dictGet e3.fields k := (updTitle_frame h4).2.2 k k4
    _ = dictGet e2.fields k := (updPages_frame h3).2.2.2 k k3
    _ = dictGet e1.fields k := (updNumber_frame h2).2.2.2 k k2
    _ = dictGet entry.fields k := (updJournal_frame h1).2.2.2 k k1

/-- Final values of the merge-target fields after a successful
`update_entry_from_crossref`, one implication per candidate key. -/
theorem update_values {ref : CrossrefRef} {entry m : Entry}
    (h : update_entry_from_crossref ref entry = .ok m) :
    (∀ j rest, ref.containerTitle = some (j :: rest) →
      dictGet m.fields "journal" = some j) ∧
    (∀ s, ref.issue = some s → dictGet m.fields "number" = some s) ∧
    (∀ p, ref.page = some p →
      dictGet m.fields "pages" = some (replaceHyphens p)) ∧
    (∀ t ts, ref.title = some (t :: ts) →
      dictGet m.fields "title" = some t) ∧
    (∀ u, ref.url = some u → dictGet m.fields "url" = some u) ∧
    (∀ v, ref.volume = some v → dictGet m.fields "volume" = some v) ∧
    (∀ y row rows, ref.publishedPrint = some ((y :: row) :: rows) →
      dictGet m.fields "year" = some (toString y)) ∧
    (ref.publishedPrint = none → ∀ y row rows,
      ref.publishedOnline = some ((y :: row) :: rows) →
      dictGet m.fields "year" = some (toString y)) ∧
    (∀ d, ref.doi = some d → dictGet m.fields "doi" = some d) ∧
    (∀ i rest, ref.issn = some (i :: rest) →
      dictGet m.fields "issn" = some i) := by
  obtain ⟨e1, e2, e3, e4, e5, e6, e7, e8, e9, e10, h1, h2, h3, h4, h5, h6,
    h7, h8, h9, h10, hm⟩ := update_chain h
  have fm : m.fields = e10.fields := by rw [hm]
  have f10 := (updAuthor_frame h10).2.2
  have f9 := (updIssn_frame h9).2.2.2
  have f8 := (updDoi_frame h8).2.2.2
  have f7 := (updYear_frame h7).2.2.2
  have f6 := (updVolume_frame h6).2.2.2
  have f5 := (updUrl_frame h5).2.2.2
  have f4 := (updTitle_frame h4).2.2
  have f3 := (updPages_frame h3).2.2.2
  have f2 := (updNumber_frame h2).2.2.2
  refine ⟨?_, ?_, ?_, ?_, ?_, ?_, ?_, ?_, ?_, ?_⟩
  · intro j rest hc
    rcases updJournal_cases h1 with ⟨hn, _⟩ | ⟨j', rest', hc', rfl⟩
    · rw [hn] at hc; cases hc
    · rw [hc'] at hc; injection hc with hc; injection hc with hc _; subst hc
      rw [fm, f10, f9 _ (by decide), f8 _ (by decide), f7 _ (by decide),
        f6 _ (by decide), f5 _ (by decide), f4 _ (by decide),
        f3 _ (by decide), f2 _ (by decide)]
      exact dictGet_dictSet_self _ _ _
  · intro s hc
    rcases updNumber_cases h2 with ⟨hn, _⟩ | ⟨s', hc', rfl⟩
    · rw [hn] at hc; cases hc
    · rw [hc'] at hc; injection hc with hc; subst hc
      rw [fm, f10, f9 _ (by decide), f8 _ (by decide), f7 _ (by decide),
        f6 _ (by decide), f5 _ (by decide), f4 _ (by decide),
        f3 _ (by decide)]
      exact dictGet_dictSet_self _ _ _
  · intro p hc
    rcases updPages_cases h3 with ⟨hn, _⟩ | ⟨p', hc', rfl⟩
    · rw [hn] at hc; cases hc
    · rw [hc'] at hc; injection hc with hc; subst hc
      rw [fm, f10, f9 _ (by decide), f8 _ (by decide), f7 _ (by decide),
        f6 _ (by decide), f5 _ (by decide), f4 _ (by decide)]
      exact dictGet_dictSet_self _ _ _
  · intro t ts hc
    rcases updTitle_cases h4 with ⟨hn, _⟩ | ⟨t', ts', old, hc', ho, rfl⟩
    · rcases hn with hn | hn <;> rw [hn] at hc <;> cases hc
    · rw [hc'] at hc; injection hc with hc; injection hc with hc _; subst hc
      rw [fm, f10, f9 _ (by decide), f8 _ (by decide), f7 _ (by decide),
        f6 _ (by decide), f5 _ (by decide)]
      exact dictGet_dictSet_self _ _ _
  · intro u hc
    rcases updUrl_cases h5 with ⟨hn, _⟩ | ⟨u', hc', rfl⟩
    · rw [hn] at hc; cases hc
    · rw [hc'] at hc; injection hc with hc; subst hc
      rw [fm, f10, f9 _ (by decide), f8 _ (by decide), f7 _ (by decide),
        f6 _ (by decide)]
      exact dictGet_dictSet_self _ _ _
  · intro v hc
    rcases updVolume_cases h6 with ⟨hn, _⟩ | ⟨v', hc', rfl⟩
    · rw [hn] at hc; cases hc
    · rw [hc'] at hc; injection hc with hc; subst hc
      rw [fm, f10, f9 _ (by decide), f8 _ (by decide), f7 _ (by decide)]
      exact dictGet_dictSet_self _ _ _
  · intro y row rows hc
    rcases updYear_cases h7 with ⟨hn, _, _⟩ | ⟨y', row', rows', hc', rfl⟩ |
      ⟨hp, y', row', rows', hc', rfl⟩
    · rw [hn] at hc; cases hc
    · rw [hc'] at hc; injection hc with hc
      injection hc with hrow _; injection hrow with hy _; subst hy
      rw [fm, f10, f9 _ (by decide), f8 _ (by decide)]
      exact dictGet_dictSet_self _ _ _
    · rw [hp] at hc; cases hc
  · intro hp y row rows hc
    rcases updYear_cases h7 with ⟨_, hn, _⟩ | ⟨y', row', rows', hc', rfl⟩ |
      ⟨_, y', row', rows', hc', rfl⟩
    · rw [hn] at hc; cases hc
    · rw [hp] at hc'; cases hc'
    · rw [hc'] at hc; injection hc with hc
      injection hc with hrow _; injection hrow with hy _; subst hy
      rw [fm, f10, f9 _ (by decide), f8 _ (by decide)]
      exact dictGet_dictSet_self _ _ _
  · intro d hc
    rcases updDoi_cases h8 with ⟨hn, _⟩ | ⟨d', hc', rfl⟩
    · rw [hn] at hc; cases hc
    · rw [hc'] at hc; injection hc with hc; subst hc
      rw [fm, f10, f9 _ (by decide)]
      exact dictGet_dictSet_self _ _ _
  · intro i rest hc
    rcases updIssn_cases h9 with ⟨hn, _⟩ | ⟨i', rest', hc', rfl⟩
    · rw [hn] at hc; cases hc
    · rw [hc'] at hc; injection hc with hc; injection hc with hc _; subst hc
      rw [fm, f10]
      exact dictGet_dictSet_self _ _ _

/-- How the persons dict of the merged entry relates to the input's. -/
theorem update_persons_val {ref : CrossrefRef} {entry m : Entry}
    (h : update_entry_from_crossref ref entry = .ok m) :
    (ref.author = none ∧ m.persons = entry.persons) ∨
    (∃ authors ps, ref.author = some authors ∧
      buildPersons authors = .ok ps ∧
      ((dictGetD entry.persons "author" []).length ≤ ps.length ∧
        m.persons = [("author", ps)] ∨
       ps.length < (dictGetD entry.persons "author" []).length ∧
        m.persons = entry.persons)) := by
  obtain ⟨e1, e2, e3, e4, e5, e6, e7, e8, e9, e10, h1, h2, h3, h4, h5, h6,
    h7, h8, h9, h10, hm⟩ := update_chain h
  have pm : m.persons = e10.persons := by rw [hm]
  have p9 : e9.persons = entry.persons := by
    calc e9.persons = e8.persons := (updIssn_frame h9).2.1
      _ = e7.persons := (updDoi_frame h8).2.1
      _ = e6.persons := (updYear_frame h7).2.1
      _ = e5.persons := (updVolume_frame h6).2.1
      _ = e4.persons := (updUrl_frame h5).2.1
      _ = e3.persons := (updTitle_frame h4).2.1
      _ = e2.persons := (updPages_frame h3).2.1
      _ = e1.persons := (updNumber_frame h2).2.1
      _ = entry.persons := (updJournal_frame h1).2.1
  rcases updAuthor_cases h10 with ⟨hn, rfl⟩ | ⟨authors, ps, hc, hb, hcase⟩
  · exact Or.inl ⟨hn, by rw [pm, p9]⟩
  · refine Or.inr ⟨authors, ps, hc, hb, ?_⟩
    rcases hcase with ⟨hlen, rfl⟩ | ⟨hlen, rfl⟩
    · rw [p9] at hlen
      exact Or.inl ⟨hlen, by rw [pm]⟩
    · rw [p9] at hlen
      exact Or.inr ⟨hlen, by rw [pm, p9]⟩

/-- The similarity attribute after a successful update: set from the OLD
title and the candidate title when the candidate has a nonempty title
list, untouched otherwise. -/
theorem update_similarity {ref : CrossrefRef} {entry m : Entry}
    (h : update_entry_from_crossref ref entry = .ok m) :
    ((ref.title = none ∨ ref.title = some []) →
      m.similarity = entry.similarity) ∧
    (∀ t ts, ref.title = some (t :: ts) → ∃ old,
      dictGet entry.fields "title" = some old ∧
      m.similarity = some (similar old t)) := by
  obtain ⟨e1, e2, e3, e4, e5, e6, e7, e8, e9, e10, h1, h2, h3, h4, h5, h6,
    h7, h8, h9, h10, hm⟩ := update_chain h
  have sm : m.similarity = e4.similarity := by
    calc m.similarity = e10.similarity := by rw [hm]
      _ = e9.similarity := (updAuthor_frame h10).2.1
      _ = e8.similarity := (updIssn_frame h9).2.2.1
      _ = e7.similarity := (updDoi_frame h8).2.2.1
      _ = e6.similarity := (updYear_frame h7).2.2.1
      _ = e5.similarity := (updVolume_frame h6).2.2.1
      _ = e4.similarity := (updUrl_frame h5).2.2.1
  have t3 : dictGet e3.fields "title" = dictGet entry.fields "title" := by
    calc dictGet e3.fields "title"
        = dictGet e2.fields "title" := (updPages_frame h3).2.2.2 _ (by decide)
      _ = dictGet e1.fields "title" := (updNumber_frame h2).2.2.2 _ (by decide)
      _ = dictGet entry.fields "title" := (updJournal_frame h1).2.2.2 _ (by decide)
  have s3 : e3.similarity = entry.similarity := by
    calc e3.similarity = e2.similarity := (updPages_frame h3).2.2.1
      _ = e1.similarity := (updNumber_frame h2).2.2.1
      _ = entry.similarity := (updJournal_frame h1).2.2.1
  constructor
  · intro hn
    rcases updTitle_cases h4 with ⟨_, rfl⟩ | ⟨t, ts, old, hc, ho, rfl⟩
    · rw [sm, s3]
    · rcases hn with hn | hn <;> rw [hn] at hc <;> cases hc
  · intro t ts hc
    rcases updTitle_cases h4 with ⟨hn, rfl⟩ | ⟨t', ts', old, hc', ho, rfl⟩
    · rcases hn with hn | hn <;> rw [hn] at hc <;> cases hc
    · rw [hc'] at hc; injection hc with hc; injection hc with ht _; subst ht
      exact ⟨old, by rw [← t3]; exact ho, by rw [sm]⟩

/-- When the candidate carries neither a print nor an online date, the
year field is left untouched. -/
theorem update_year_untouched {ref : CrossrefRef} {entry m : Entry}
    (h : update_entry_from_crossref ref entry = .ok m)
    (hp : ref.publishedPrint = none) (ho : ref.publishedOnline = none) :
    dictGet m.fields "year" = dictGet entry.fields "year" := by
  obtain ⟨e1, e2, e3, e4, e5, e6, e7, e8, e9, e10, h1, h2, h3, h4, h5, h6,
    h7, h8, h9, h10, hm⟩ := update_chain h
  have hy : e7 = e6 := by
    rcases updYear_cases h7 with ⟨_, _, rfl⟩ | ⟨y, row, rows, hc, _⟩ |
      ⟨_, y, row, rows, hc, _⟩
    · rfl
    · rw [hp] at hc; cases hc
    · rw [ho] at hc; cases hc
  calc dictGet m.fields "year"
      = dictGet e9.fields "year" := by rw [hm]; rw [(updAuthor_frame h10).2.2]
    _ = dictGet e8.fields "year" := (updIssn_frame h9).2.2.2 _ (by decide)
    _ = dictGet e7.fields "year" := (updDoi_frame h8).2.2.2 _ (by decide)
    _ = dictGet e6.fields "year" := by rw [hy]
    _ = dictGet e5.fields "year" := (updVolume_frame h6).2.2.2 _ (by decide)
    _ = dictGet e4.fields "year" := (updUrl_frame h5).2.2.2 _ (by decide)
    _ = dictGet e3.fields "year" := (updTitle_frame h4).2.2 _ (by decide)
    _ = dictGet e2.fields "year" := (updPages_frame h3).2.2.2 _ (by decide)
    _ = dictGet e1.fields "year" := (updNumber_frame h2).2.2.2 _ (by decide)
    _ = dictGet entry.fields "year" := (updJournal_frame h1).2.2.2 _ (by decide)

/-- The author loop renders each candidate author as "Family, Given", as
the family name alone without a given name, and as the organization name
without a family name; it appends exactly one person per author. -/
theorem buildPersons_spec {as : List CrossrefAuthor} {ps : List Person}
    (h : buildPersons as = .ok ps) :
    ps.length = as.length ∧
    List.Forall₂ (fun (a : CrossrefAuthor) (p : Person) =>
      (∀ f g, a.family = some f → a.given = some g →
        p.name = f ++ ", " ++ g) ∧
      (∀ f, a.family = some f → a.given = none → p.name = f) ∧
      (∀ n, a.family = none → a.name = some n → p.name = n)) as ps := by
  induction as generalizing ps with
  | nil =>
    simp [buildPersons] at h
    subst h
    exact ⟨rfl, List.Forall₂.nil⟩
  | cons a rest ih =>
    unfold buildPersons at h
    rcases hp : crossrefPerson a with msg | p <;> rw [hp] at h <;>
      simp only [Bind.bind, Except.bind] at h
    · exact Except.noConfusion h
    rcases hr : buildPersons rest with msg | ps' <;> rw [hr] at h <;>
      simp only [] at h
    · exact Except.noConfusion h
    simp only [pure, Except.pure, Except.ok.injEq] at h
    subst h
    obtain ⟨hlen, hfa⟩ := ih hr
    refine ⟨by simp [hlen], List.Forall₂.cons ?_ hfa⟩
    refine ⟨?_, ?_, ?_⟩
    · intro f g hf hg
      unfold crossrefPerson at hp
      rw [hf, hg] at hp
      simpa using (congrArg Person.name (Except.ok.inj hp)).symm
    · intro f hf hg
      unfold crossrefPerson at hp
      rw [hf, hg] at hp
      simpa using (congrArg Person.name (Except.ok.inj hp)).symm
    · intro n hf hn
      unfold crossrefPerson at hp
      rw [hf, hn] at hp
      simpa using (congrArg Person.name (Except.ok.inj hp)).symm

/-- Merging the same candidate a second time changes neither the fields
nor the persons of the merged entry. -/
theorem update_idem {ref : CrossrefRef} {e m : Entry}
    (h : update_entry_from_crossref ref e = .ok m) :
    ∃ m2, update_entry_from_crossref ref m = .ok m2 ∧
      m2.fields = m.fields ∧ m2.persons = m.persons := by
  obtain ⟨e1, e2, e3, e4, e5, e6, e7, e8, e9, e10, h1, h2, h3, h4, h5, h6,
    h7, h8, h9, h10, hm⟩ := update_chain h
  obtain ⟨vj, vn, vp, vt, vu, vv, vyp, vyo, vd, vi⟩ := update_values h
  have g1 : updJournal ref m = .ok m := by
    unfold updJournal
    rcases updJournal_cases h1 with ⟨hn, _⟩ | ⟨j, rest, hc, _⟩
    · rw [hn]
    · rw [hc]
      simp only [pyHead, Bind.bind, Except.bind]
      rw [dictSet_eq_of_get (vj j rest hc)]
  have g2 : updNumber ref m = .ok m := by
    unfold updNumber
    rcases updNumber_cases h2 with ⟨hn, _⟩ | ⟨s, hc, _⟩
    · rw [hn]
    · rw [hc]
      simp only []
      rw [dictSet_eq_of_get (vn s hc)]
  have g3 : updPages ref m = .ok m := by
    unfold updPages
    rcases updPages_cases h3 with ⟨hn, _⟩ | ⟨p, hc, _⟩
    · rw [hn]
    · rw [hc]
      simp only []
      rw [dictSet_eq_of_get (vp p hc)]
  obtain ⟨m4, g4, h4f, h4p⟩ : ∃ m4, updTitle ref m = .ok m4 ∧
      m4.fields = m.fields ∧ m4.persons = m.persons := by
    rcases updTitle_cases h4 with ⟨hn, _⟩ | ⟨t, ts, old, hc, ho, _⟩
    · refine ⟨m, ?_, rfl, rfl⟩
      unfold updTitle
      rcases hn with hn | hn <;> rw [hn]
    · refine ⟨{ m with similarity := some (similar t t) }, ?_, rfl, rfl⟩
      unfold updTitle
      rw [hc]
      simp only [pyDictGet, vt t ts hc, Bind.bind, Except.bind]
      rw [dictSet_eq_of_get (vt t ts hc)]
  have g5 : updUrl ref m4 = .ok m4 := by
    unfold updUrl
    rcases updUrl_cases h5 with ⟨hn, _⟩ | ⟨u, hc, _⟩
    · rw [hn]
    · rw [hc]
      simp only []
      rw [show dictSet m4.fields "url" u = m4.fields from
        dictSet_eq_of_get (by rw [h4f]; exact vu u hc)]
  have g6 : updVolume ref m4 = .ok m4 := by
    unfold updVolume
    rcases updVolume_cases h6 with ⟨hn, _⟩ | ⟨v, hc, _⟩
    · rw [hn]
    · rw [hc]
      simp only []
      rw [show dictSet m4.fields "volume" v = m4.fields from
        dictSet_eq_of_get (by rw [h4f]; exact vv v hc)]
  have g7 : updYear ref m4 = .ok m4 := by
    unfold updYear
    rcases updYear_cases h7 with ⟨hp, ho, _⟩ | ⟨y, row, rows, hc, _⟩ |
      ⟨hp, y, row, rows, hc, _⟩
    · rw [hp, ho]
    · rw [hc]
      simp only [pyHead, Bind.bind, Except.bind]
      rw [show dictSet m4.fields "year" (toString y) = m4.fields from
        dictSet_eq_of_get (by rw [h4f]; exact vyp y row rows hc)]
    · rw [hp, hc]
      simp only [pyHead, Bind.bind, Except.bind]
      rw [show dictSet m4.fields "year" (toString y) = m4.fields from
        dictSet_eq_of_get (by rw [h4f]; exact vyo hp y row rows hc)]
  have g8 : updDoi ref m4 = .ok m4 := by
    unfold updDoi
    rcases updDoi_cases h8 with ⟨hn, _⟩ | ⟨d, hc, _⟩
    · rw [hn]
    · rw [hc]
      simp only []
      rw [show dictSet m4.fields "doi" d = m4.fields from
        dictSet_eq_of_get (by rw [h4f]; exact vd d hc)]
  have g9 : updIssn ref m4 = .ok m4 := by
    unfold updIssn
    rcases updIssn_cases h9 with ⟨hn, _⟩ | ⟨i, rest, hc, _⟩
    · rw [hn]
    · rw [hc]
      simp only [pyHead, Bind.bind, Except.bind]
      rw [show dictSet m4.fields "issn" i = m4.fields from
        dictSet_eq_of_get (by rw [h4f]; exact vi i rest hc)]
  obtain ⟨m10, g10, h10f, h10p⟩ : ∃ m10, updAuthor ref m4 = .ok m10 ∧
      m10.fields = m4.fields ∧ m10.persons = m.persons := by
    rcases update_persons_val h with ⟨hn, hpp⟩ | ⟨authors, ps, hc, hb, hcase⟩
    · refine ⟨m4, ?_, rfl, h4p⟩
      unfold updAuthor
      rw [hn]
    · rcases hcase with ⟨hlen, hpp⟩ | ⟨hlen, hpp⟩
      · refine ⟨{ m4 with persons := [("author", ps)] }, ?_, rfl, by rw [hpp]⟩
        unfold updAuthor
        rw [hc]
        simp only [hb, Bind.bind, Except.bind]
        have : dictGetD m4.persons "author" [] = ps := by
          rw [h4p, hpp]; simp [dictGetD, dictGet]
        rw [this]
        simp
      · refine ⟨m4, ?_, rfl, h4p⟩
        unfold updAuthor
        rw [hc]
        simp only [hb, Bind.bind, Except.bind]
        have : dictGetD m4.persons "author" [] = dictGetD e.persons "author" [] := by
          rw [h4p, hpp]
        rw [this]
        simp [Nat.not_le.mpr hlen]
  refine ⟨{ m10 with relevance := some (ref.score.getD 100) },
    update_chain_construct g1 g2 g3 g4 g5 g6 g7 g8 g9 g10, ?_, ?_⟩
  · show m10.fields = m.fields
    rw [h10f, h4f]
  · show m10.persons = m.persons
    rw [h10p]

/-- When the candidate has no (nonempty) title, the title field is left
untouched. -/
theorem update_title_untouched {ref : CrossrefRef} {entry m : Entry}
    (h : update_entry_from_crossref ref entry = .ok m)
    (ht : ref.title = none ∨ ref.title = some []) :
    dictGet m.fields "title" = dictGet entry.fields "title" := by
  obtain ⟨e1, e2, e3, e4, e5, e6, e7, e8, e9, e10, h1, h2, h3, h4, h5, h6,
    h7, h8, h9, h10, hm⟩ := update_chain h
  have h4' : e4 = e3 := by
    rcases updTitle_cases h4 with ⟨_, rfl⟩ | ⟨t, ts, old, hc, _, _⟩
    · rfl
    · rcases ht with ht | ht <;> rw [ht] at hc <;> cases hc
  calc dictGet m.fields "title"
      = dictGet e9.fields "title" := by rw [hm]; rw [(updAuthor_frame h10).2.2]
    _ = dictGet e8.fields "title" := (updIssn_frame h9).2.2.2 _ (by decide)
    _ = dictGet e7.fields "title" := (updDoi_frame h8).2.2.2 _ (by decide)
    _ = dictGet e6.fields "title" := (updYear_frame h7).2.2.2 _ (by decide)
    _ = dictGet e5.fields "title" := (updVolume_frame h6).2.2.2 _ (by decide)
    _ = dictGet e4.fields "title" := (updUrl_frame h5).2.2.2 _ (by decide)
    _ = dictGet e3.fields "title" := by rw [h4']
    _ = dictGet e2.fields "title" := (updPages_frame h3).2.2.2 _ (by decide)
    _ = dictGet e1.fields "title" := (updNumber_frame h2).2.2.2 _ (by decide)
    _ = dictGet entry.fields "title" := (updJournal_frame h1).2.2.2 _ (by decide)

/-! ## Pipeline lemmas -/

/-- The merge loop body always stores under the key it was handed. -/
theorem merge_result_key {doiLookup : String → Option CrossrefRef}
    {key : String} {entry : Entry} {ref : CrossrefRef} {k' : String}
    {e' : Entry} {logs : List String}
    (h : merge_result doiLookup (.triple key entry ref) =
      .ok (some (k', e'), logs)) : k' = key := by
  unfold merge_result at h
  simp only [Bind.bind, Except.bind] at h
  rcases hu : update_entry_from_crossref ref entry with msg | m <;>
    rw [hu] at h <;> simp only [] at h
  · exact Except.noConfusion h
  split at h
  · rcases hs : m.similarity with _ | s <;> rw [hs] at h <;>
      simp only [pyAttr] at h
    · exact Except.noConfusion h
    split at h
    · rcases hfb : find_crossref_doi doiLookup (dictGetD entry.fields "doi" "")
        with _ | fb <;> rw [hfb] at h <;> simp only [] at h
      · simp only [Except.ok.injEq, Prod.mk.injEq, Option.some.injEq] at h
        exact h.1.1.symm
      · rcases hup : update_entry_from_crossref fb
          { entry with fields := m.fields } with msg | mfb <;>
          rw [hup] at h <;> simp only [] at h
        · exact Except.noConfusion h
        rcases hti : dictGet mfb.fields "title" with _ | ft <;>
          simp only [pyDictGet, hti] at h
        · exact Except.noConfusion h
        split at h <;>
          simp only [Except.ok.injEq, Prod.mk.injEq, Option.some.injEq] at h <;>
          exact h.1.1.symm
    · simp only [Except.ok.injEq, Prod.mk.injEq, Option.some.injEq] at h
      exact h.1.1.symm
  · simp only [Except.ok.injEq, Prod.mk.injEq, Option.some.injEq] at h
    exact h.1.1.symm

/-- Structural invariant of a completed run: the patched collection has
exactly the original key sequence, and an entry differs from the original
only if its primary search returned a candidate. -/
theorem fix_bibtex_invariant {lookup : String → Entry → LookupOutcome}
    {doiLookup : String → Option CrossrefRef}
    {entries col : List (String × Entry)} {logs : List String}
    (h : fix_bibtex lookup doiLookup entries = .ok (col, logs)) :
    col.map Prod.fst = entries.map Prod.fst ∧
    List.Forall₂ (fun (a b : String × Entry) => b.1 = a.1 ∧
      (b.2 ≠ a.2 → ∃ r, lookup a.1 a.2 = .found r)) entries col := by
  induction entries generalizing col logs with
  | nil =>
    simp only [fix_bibtex, Except.ok.injEq, Prod.mk.injEq] at h
    obtain ⟨rfl, rfl⟩ := h
    exact ⟨rfl, List.Forall₂.nil⟩
  | cons ke rest ih =>
    obtain ⟨k, e⟩ := ke
    unfold fix_bibtex at h
    simp only [Bind.bind, Except.bind] at h
    split at h
    · -- skipped entry, carried over unchanged
      rcases hr : fix_bibtex lookup doiLookup rest with msg | pr <;>
        rw [hr] at h <;> simp only [] at h
      · exact Except.noConfusion h
      obtain ⟨col', logs'⟩ := pr
      simp only [Except.ok.injEq, Prod.mk.injEq] at h
      obtain ⟨hcol, _⟩ := h
      subst hcol
      obtain ⟨hmap, hfa⟩ := ih hr
      exact ⟨by simp [hmap], List.Forall₂.cons ⟨rfl, fun hne => absurd rfl hne⟩ hfa⟩
    · rcases hq : dictGet e.fields "title" with _ | q <;>
        simp only [find_crossref, pyDictGet, hq, Bind.bind, Except.bind] at h
      · exact Except.noConfusion h
      rcases hl : lookup k e with msg | _ | r <;> rw [hl] at h <;>
        simp only [] at h
      · -- lookup raised: errorTriple, entry kept
        simp only [merge_result] at h
        rcases hr : fix_bibtex lookup doiLookup rest with msg2 | pr <;>
          rw [hr] at h <;> simp only [] at h
        · exact Except.noConfusion h
        obtain ⟨col', logs'⟩ := pr
        simp only [Except.ok.injEq, Prod.mk.injEq] at h
        obtain ⟨hcol, _⟩ := h
        subst hcol
        obtain ⟨hmap, hfa⟩ := ih hr
        exact ⟨by simp [hmap], List.Forall₂.cons ⟨rfl, fun hne => absurd rfl hne⟩ hfa⟩
      · -- empty result: entry kept
        simp only [merge_result] at h
        rcases hr : fix_bibtex lookup doiLookup rest with msg2 | pr <;>
          rw [hr] at h <;> simp only [] at h
        · exact Except.noConfusion h
        obtain ⟨col', logs'⟩ := pr
        simp only [Except.ok.injEq, Prod.mk.injEq] at h
        obtain ⟨hcol, _⟩ := h
        subst hcol
        obtain ⟨hmap, hfa⟩ := ih hr
        exact ⟨by simp [hmap], List.Forall₂.cons ⟨rfl, fun hne => absurd rfl hne⟩ hfa⟩
      · -- candidate found: the merge loop stores under the same key
        rcases hm : merge_result doiLookup (.triple k e r) with msg2 | pr2 <;>
          rw [hm] at h <;> simp only [] at h
        · exact Except.noConfusion h
        obtain ⟨upd, logs2⟩ := pr2
        rcases hr : fix_bibtex lookup doiLookup rest with msg3 | pr <;>
          rw [hr] at h <;> simp only [] at h
        · exact Except.noConfusion h
        obtain ⟨col', logs'⟩ := pr
        obtain ⟨hmap, hfa⟩ := ih hr
        rcases upd with _ | ⟨k', e'⟩ <;>
          simp only [Except.ok.injEq, Prod.mk.injEq] at h <;>
          obtain ⟨hcol, _⟩ := h <;> subst hcol
        · exact ⟨by simp [hmap],
            List.Forall₂.cons ⟨rfl, fun hne => absurd rfl hne⟩ hfa⟩
        · have hk : k' = k := merge_result_key hm
          subst hk
          exact ⟨by simp [hmap],
            List.Forall₂.cons ⟨rfl, fun _ => ⟨r, hl⟩⟩ hfa⟩

/-! ## Claim theorems -/

/-- C1 (counterexample to the claim as stated): `update_entry_from_crossref`
does NOT leave the original entry unchanged — `copy(entry)` on line 184 is
shallow, so the field writes go into the dictionary shared with the input.
For an entry with only a title and a candidate carrying a page range, the
input entry's fields dictionary has gained a `pages` field by the time the
call returns. -/
theorem claim_C1_counterexample :
    originalAfterUpdate { page := some "1-2" }
        { type := "article", fields := [("title", "x")], persons := [] } ≠
      .ok { type := "article", fields := [("title", "x")], persons := [] } := by
  intro h
  rw [show originalAfterUpdate { page := some "1-2" }
      { type := "article", fields := [("title", "x")], persons := [] } =
    .ok { type := "article",
          fields := [("title", "x"), ("pages", replaceHyphens "1-2")],
          persons := [] } from rfl] at h
  exact absurd (congrArg Entry.fields (Except.ok.inj h)) (by decide)

/-- C1 (amended): `update_entry_from_crossref` returns a new Entry object
and never rebinds the input's `persons` mapping or its attributes, but the
shallow copy shares the `fields` mapping: after the call the original
entry's fields ARE the merged fields (mutated in place), though only the
nine merge-target keys can differ from their original values. -/
theorem claim_C1 {ref : CrossrefRef} {entry m : Entry}
    (h : update_entry_from_crossref ref entry = .ok m) :
    originalAfterUpdate ref entry = .ok { entry with fields := m.fields } ∧
    ∀ k, k ∉ ["journal", "number", "pages", "title", "url", "volume",
      "year", "doi", "issn"] →
      dictGet m.fields k = dictGet entry.fields k := by
  refine ⟨?_, update_fields_frame h⟩
  unfold originalAfterUpdate
  rw [h]
  rfl

theorem claim_C1_witness :
    (originalAfterUpdate { page := some "1-2" }
        { type := "article", fields := [("title", "x")], persons := [] } =
      .ok { type := "article",
            fields := [("title", "x"), ("pages", replaceHyphens "1-2")],
            persons := [] }) ∧
    ∀ k, k ∉ ["journal", "number", "pages", "title", "url", "volume",
      "year", "doi", "issn"] →
      dictGet [("title", "x"), ("pages", replaceHyphens "1-2")] k =
        dictGet [("title", "x")] k :=
  claim_C1 (show update_entry_from_crossref { page := some "1-2" }
      { type := "article", fields := [("title", "x")], persons := [] } =
    .ok { type := "article",
          fields := [("title", "x"), ("pages", replaceHyphens "1-2")],
          persons := [], relevance := some 100 } from rfl)

/-- C3: merging the same candidate into an already-merged entry changes
nothing: `update_entry_from_crossref(ref, update_entry_from_crossref(ref, e))`
has the same fields and the same persons as
`update_entry_from_crossref(ref, e)`. -/
theorem claim_C3 {ref : CrossrefRef} {e m : Entry}
    (h : update_entry_from_crossref ref e = .ok m) :
    ∃ m2, update_entry_from_crossref ref m = .ok m2 ∧
      m2.fields = m.fields ∧ m2.persons = m.persons :=
  update_idem h

theorem claim_C3_witness :
    ∃ m2, update_entry_from_crossref { title := some ["ab"], page := some "1-2" }
        { type := "article",
          fields := [("title", "ab"), ("pages", replaceHyphens "1-2")],
          persons := [], similarity := some (similar "ab" "ab"),
          relevance := some 100 } = .ok m2 ∧
      m2.fields = [("title", "ab"), ("pages", replaceHyphens "1-2")] ∧
      m2.persons = [] :=
  claim_C3 (show update_entry_from_crossref
      { title := some ["ab"], page := some "1-2" }
      { type := "article", fields := [("title", "ab")], persons := [] } =
    .ok { type := "article",
          fields := [("title", "ab"), ("pages", replaceHyphens "1-2")],
          persons := [], similarity := some (similar "ab" "ab"),
          relevance := some 100 } from rfl)

/-- C6: the author list is rebuilt from the candidate exactly when the
candidate's author count is at least the existing author count; each rebuilt
author renders as "Family, Given", as the family name alone when there is
no given name, or as the organization name when there is no family name. -/
theorem claim_C6 {ref : CrossrefRef} {e m : Entry} {as : List CrossrefAuthor}
    (ha : ref.author = some as)
    (h : update_entry_from_crossref ref e = .ok m) :
    ∃ ps, buildPersons as = .ok ps ∧ ps.length = as.length ∧
      m.persons = (if (dictGetD e.persons "author" []).length ≤ as.length
        then [("author", ps)] else e.persons) ∧
      List.Forall₂ (fun (a : CrossrefAuthor) (p : Person) =>
        (∀ f g, a.family = some f → a.given = some g →
          p.name = f ++ ", " ++ g) ∧
        (∀ f, a.family = some f → a.given = none → p.name = f) ∧
        (∀ n, a.family = none → a.name = some n → p.name = n)) as ps := by
  rcases update_persons_val h with ⟨hn, _⟩ | ⟨authors, ps, hc, hb, hcase⟩
  · rw [ha] at hn; cases hn
  · rw [ha] at hc; injection hc with hc; subst hc
    obtain ⟨hlen, hfa⟩ := buildPersons_spec hb
    refine ⟨ps, hb, hlen, ?_, hfa⟩
    rcases hcase with ⟨hle, hp⟩ | ⟨hlt, hp⟩
    · rw [hp, if_pos (by omega)]
    · rw [hp, if_neg (by omega)]

theorem claim_C6_witness :
    ∃ ps, buildPersons [{ family := some "A", given := some "B" },
        { family := some "C" }, { name := some "Org" }] = .ok ps ∧
      ps.length = 3 ∧
      ([("author", [Person.mk "A, B", Person.mk "C", Person.mk "Org"])] :
          List (String × List Person)) =
        (if (dictGetD [("author", [Person.mk "X"])] "author" []).length ≤ 3
          then [("author", ps)] else [("author", [Person.mk "X"])]) := by
  obtain ⟨ps, h1, h2, h3, _⟩ := claim_C6 rfl
    (show update_entry_from_crossref
        { author := some [{ family := some "A", given := some "B" },
            { family := some "C" }, { name := some "Org" }] }
        { type := "article", fields := [],
          persons := [("author", [Person.mk "X"])] } =
      .ok { type := "article", fields := [],
            persons := [("author",
              [Person.mk "A, B", Person.mk "C", Person.mk "Org"])],
            relevance := some 100 } from rfl)
  exact ⟨ps, h1, h2, h3⟩

/-- C8: the year field is set from the first date-part of the candidate's
print publication date when present, else from the online publication
date, else left untouched. -/
theorem claim_C8 {ref : CrossrefRef} {entry m : Entry}
    (h : update_entry_from_crossref ref entry = .ok m) :
    (∀ y row rows, ref.publishedPrint = some ((y :: row) :: rows) →
      dictGet m.fields "year" = some (toString y)) ∧
    (ref.publishedPrint = none → ∀ y row rows,
      ref.publishedOnline = some ((y :: row) :: rows) →
      dictGet m.fields "year" = some (toString y)) ∧
    (ref.publishedPrint = none → ref.publishedOnline = none →
      dictGet m.fields "year" = dictGet entry.fields "year") := by
  obtain ⟨_, _, _, _, _, _, vyp, vyo, _, _⟩ := update_values h
  exact ⟨vyp, vyo, fun hp ho => update_year_untouched h hp ho⟩

theorem claim_C8_witness :
    dictGet [("year", toString (2020 : Int))] "year" =
      some (toString (2020 : Int)) ∧ toString (2020 : Int) = "2020" :=
  ⟨(claim_C8 (show update_entry_from_crossref
      { publishedPrint := some [[2020]], publishedOnline := some [[2019]] }
      { type := "article", fields := [], persons := [] } =
    .ok { type := "article", fields := [("year", toString (2020 : Int))],
          persons := [], relevance := some 100 } from rfl)).1
    2020 [] [] rfl, by decide⟩

/-- C9: when the candidate has a page range, the merged pages field is the
range with each hyphen doubled; in particular "123-130" becomes
"123--130". -/
theorem claim_C9 {ref : CrossrefRef} {entry m : Entry} {p : String}
    (hp : ref.page = some p)
    (h : update_entry_from_crossref ref entry = .ok m) :
    dictGet m.fields "pages" = some (replaceHyphens p) :=
  (update_values h).2.2.1 p hp

theorem claim_C9_witness :
    dictGet [("pages", replaceHyphens "123-130")] "pages" =
      some (replaceHyphens "123-130") ∧
    replaceHyphens "123-130" = "123--130" :=
  ⟨claim_C9 rfl (show update_entry_from_crossref { page := some "123-130" }
      { type := "article", fields := [], persons := [] } =
    .ok { type := "article", fields := [("pages", replaceHyphens "123-130")],
          persons := [], relevance := some 100 } from rfl), by decide⟩

/-- One-step unfolding of `fix_bibtex` on a cons cell, keeping the
recursive call folded. -/
theorem fix_bibtex_cons (lookup : String → Entry → LookupOutcome)
    (doiLookup : String → Option CrossrefRef) (key : String) (e : Entry)
    (rest : List (String × Entry)) :
    fix_bibtex lookup doiLookup ((key, e) :: rest) =
      (if (e.type != "article" || decide ("rxiv.org".toList <:+:
          (dictGetD e.fields "url" "").toList)) = true
       then do
         let pr ← fix_bibtex lookup doiLookup rest
         .ok ((key, e) :: pr.1, pr.2)
       else do
         let frp ← find_crossref lookup key e
         let up ← merge_result doiLookup frp.1
         let pr ← fix_bibtex lookup doiLookup rest
         match up.1 with
         | some (k', e') => .ok ((k', e') :: pr.1, frp.2 ++ up.2 ++ pr.2)
         | none => .ok ((key, e) :: pr.1, frp.2 ++ up.2 ++ pr.2)) := rfl

/-- C7: a completed run's patched collection has exactly the original key
sequence (no entry added, deleted, or re-keyed), and an entry's value
differs from the original only when the primary search returned a
candidate for it; otherwise it is carried over unchanged. -/
theorem claim_C7 {lookup : String → Entry → LookupOutcome}
    {doiLookup : String → Option CrossrefRef}
    {entries col : List (String × Entry)} {logs : List String}
    (h : fix_bibtex lookup doiLookup entries = .ok (col, logs)) :
    col.map Prod.fst = entries.map Prod.fst ∧
    List.Forall₂ (fun (a b : String × Entry) => b.1 = a.1 ∧
      (b.2 ≠ a.2 → ∃ r, lookup a.1 a.2 = .found r)) entries col :=
  fix_bibtex_invariant h

/-- The two-entry collection used to witness C7: one article (looked up,
empty search result) and one book (skipped). -/
def c7Entries : List (String × Entry) :=
  [("k1", { type := "article", fields := [("title", "t")], persons := [] }),
   ("k2", { type := "book", fields := [], persons := [] })]

theorem claim_C7_witness :
    (c7Entries.map Prod.fst = c7Entries.map Prod.fst) ∧
    List.Forall₂ (fun (a b : String × Entry) => b.1 = a.1 ∧
      (b.2 ≠ a.2 → ∃ r, (fun (_ : String) (_ : Entry) =>
        LookupOutcome.empty) a.1 a.2 = .found r)) c7Entries c7Entries :=
  claim_C7 (show fix_bibtex (fun _ _ => LookupOutcome.empty) (fun _ => none)
      c7Entries = .ok (c7Entries, []) from rfl)

/-- C5: when the remote lookup for an entry raises, the error is caught and
logged with that entry's key, the entry is carried over unchanged into the
patched collection, and the remaining entries are processed exactly as
they would have been (the run does not abort because of this entry). -/
theorem claim_C5 {lookup : String → Entry → LookupOutcome}
    {doiLookup : String → Option CrossrefRef} {key : String} {e : Entry}
    {rest : List (String × Entry)} {msg q : String}
    (hskip : (e.type != "article" ||
      decide ("rxiv.org".toList <:+:
        (dictGetD e.fields "url" "").toList)) = false)
    (ht : dictGet e.fields "title" = some q)
    (hl : lookup key e = .error msg) :
    fix_bibtex lookup doiLookup ((key, e) :: rest) =
      (fix_bibtex lookup doiLookup rest).map fun pr =>
        ((key, e) :: pr.1,
          ("! Could not fetch " ++ key ++ " due to error: " ++ msg) :: pr.2) := by
  rw [fix_bibtex_cons, hskip]
  simp only [Bool.false_eq_true, if_false, find_crossref, pyDictGet, ht,
    Bind.bind, Except.bind]
  rw [hl]
  simp only [merge_result]
  rcases hr : fix_bibtex lookup doiLookup rest with msg2 | pr
  · rfl
  · obtain ⟨col, logs⟩ := pr
    simp [Except.map]

/-- The single-entry collection used to witness C5. -/
def c5Entry : Entry :=
  { type := "article", fields := [("title", "t")], persons := [] }

theorem claim_C5_witness :
    fix_bibtex (fun _ _ => LookupOutcome.error "boom") (fun _ => none)
        [("k1", c5Entry)] =
      (fix_bibtex (fun _ _ => LookupOutcome.error "boom") (fun _ => none)
        ([] : List (String × Entry))).map fun pr =>
        (("k1", c5Entry) :: pr.1,
          ("! Could not fetch " ++ "k1" ++ " due to error: " ++ "boom") ::
            pr.2) :=
  claim_C5 (by decide) rfl rfl

/-- C10: when the primary search returns a candidate record without a
(nonempty) title, `update_entry_from_crossref` never sets a similarity
attribute, `fix_bibtex` takes the low-similarity branch on the default 0,
and its warning line reads the missing attribute: the run crashes with an
AttributeError instead of merging or skipping. -/
theorem claim_C10 {lookup : String → Entry → LookupOutcome}
    {doiLookup : String → Option CrossrefRef} {key : String} {e m : Entry}
    {ref : CrossrefRef} {rest : List (String × Entry)} {q : String}
    (hskip : (e.type != "article" ||
      decide ("rxiv.org".toList <:+:
        (dictGetD e.fields "url" "").toList)) = false)
    (ht : dictGet e.fields "title" = some q)
    (hl : lookup key e = .found ref)
    (htl : ref.title = none ∨ ref.title = some [])
    (hsim : e.similarity = none)
    (hu : update_entry_from_crossref ref e = .ok m) :
    fix_bibtex lookup doiLookup ((key, e) :: rest) =
      .error ("AttributeError: " ++ "similarity") := by
  have hms : m.similarity = none := by
    rw [(update_similarity hu).1 htl, hsim]
  rw [fix_bibtex_cons, hskip]
  simp only [Bool.false_eq_true, if_false, find_crossref, pyDictGet, ht,
    Bind.bind, Except.bind]
  rw [hl]
  simp only [merge_result, Bind.bind, Except.bind]
  rw [hu]
  simp only [hms, Option.getD_none]
  rw [if_pos (by norm_num : (0 : ℚ) < 3/4)]
  simp only [pyAttr]

/-- C4: whenever the primary search returned a candidate that carries a
title (so a similarity score exists), the merge result is stored — even
when the similarity is below the 0.75 threshold, with or without a DOI
fallback and whether or not the fallback clears the threshold; a score of
at least 0.75 is accepted silently and anything below only produces
warnings (assuming the fallback merge, when attempted, raises no
exception). -/
theorem claim_C4 {doiLookup : String → Option CrossrefRef} {key : String}
    {entry m : Entry} {ref : CrossrefRef} {t : String} {ts : List String}
    (htl : ref.title = some (t :: ts))
    (hu : update_entry_from_crossref ref entry = .ok m)
    (hfb : ∀ fb, find_crossref_doi doiLookup
        (dictGetD entry.fields "doi" "") = some fb →
      ∃ mf, update_entry_from_crossref fb
        { entry with fields := m.fields } = .ok mf) :
    ∃ s stored logs, m.similarity = some s ∧
      merge_result doiLookup (.triple key entry ref) =
        .ok (some (key, stored), logs) ∧
      (stored = m ∨ ∃ fb mf,
        find_crossref_doi doiLookup (dictGetD entry.fields "doi" "") =
          some fb ∧
        update_entry_from_crossref fb { entry with fields := m.fields } =
          .ok mf ∧ stored = mf) ∧
      (3/4 ≤ s → stored = m ∧ logs = []) ∧
      (s < 3/4 → logs ≠ []) := by
  obtain ⟨old, hold, hs⟩ := (update_similarity hu).2 t ts htl
  refine ⟨similar old t, ?_⟩
  by_cases hlt : similar old t < 3/4
  · by_cases hd : dictGetD entry.fields "doi" "" ≠ ""
    · rcases hfbv : find_crossref_doi doiLookup
        (dictGetD entry.fields "doi" "") with _ | fb
      · -- wrong DOI: primary merge still stored
        refine ⟨m, ["! `" ++ key ++ "` has low similarity", "Wrong DOI!"],
          hs, ?_, Or.inl rfl,
          fun hge => absurd hlt (not_lt.mpr hge), fun _ => by simp⟩
        unfold merge_result
        simp only [Bind.bind, Except.bind]
        rw [hu]
        simp only [hs, Option.getD_some]
        rw [if_pos hlt]
        simp only [pyAttr]
        rw [if_pos hd, hfbv]
      · -- fallback candidate: one of the two merges is stored
        obtain ⟨mf, hmf⟩ := hfb fb hfbv
        have hft : ∃ ft, dictGet mf.fields "title" = some ft := by
          rcases hfbt : fb.title with _ | l
          · refine ⟨t, ?_⟩
            rw [update_title_untouched hmf (Or.inl hfbt)]
            exact (update_values hu).2.2.2.1 t ts htl
          · rcases l with _ | ⟨t', ts'⟩
            · refine ⟨t, ?_⟩
              rw [update_title_untouched hmf (Or.inr hfbt)]
              exact (update_values hu).2.2.2.1 t ts htl
            · exact ⟨t', (update_values hmf).2.2.2.1 t' ts' hfbt⟩
        obtain ⟨ft, hftv⟩ := hft
        by_cases hlt2 : similar (dictGetD entry.fields "title" "") ft < 3/4
        · -- not fixed: primary merge stored
          refine ⟨m, ["! `" ++ key ++ "` has low similarity", "Not fixed"],
            hs, ?_, Or.inl rfl,
            fun hge => absurd hlt (not_lt.mpr hge), fun _ => by simp⟩
          unfold merge_result
          simp only [Bind.bind, Except.bind]
          rw [hu]
          simp only [hs, Option.getD_some]
          rw [if_pos hlt]
          simp only [pyAttr]
          rw [if_pos hd, hfbv]
          simp only []
          rw [hmf]
          simp only [pyDictGet, hftv]
          rw [if_pos hlt2]
        · -- fixed: fallback merge stored
          refine ⟨mf, ["! `" ++ key ++ "` has low similarity", "Fixed"],
            hs, ?_, Or.inr ⟨fb, mf, rfl, hmf, rfl⟩,
            fun hge => absurd hlt (not_lt.mpr hge), fun _ => by simp⟩
          unfold merge_result
          simp only [Bind.bind, Except.bind]
          rw [hu]
          simp only [hs, Option.getD_some]
          rw [if_pos hlt]
          simp only [pyAttr]
          rw [if_pos hd, hfbv]
          simp only []
          rw [hmf]
          simp only [pyDictGet, hftv]
          rw [if_neg hlt2]
    · -- no DOI available: primary merge still stored
      refine ⟨m, ["! `" ++ key ++ "` has low similarity",
          "No DOI available for fallback search."],
        hs, ?_, Or.inl rfl,
        fun hge => absurd hlt (not_lt.mpr hge), fun _ => by simp⟩
      unfold merge_result
      simp only [Bind.bind, Except.bind]
      rw [hu]
      simp only [hs, Option.getD_some]
      rw [if_pos hlt]
      simp only [pyAttr]
      rw [if_neg hd]
  · -- confident match: stored silently
    refine ⟨m, [], hs, ?_, Or.inl rfl, fun _ => ⟨rfl, rfl⟩,
      fun hlt2 => absurd hlt2 hlt⟩
    unfold merge_result
    simp only [Bind.bind, Except.bind]
    rw [hu]
    simp only [hs, Option.getD_some]
    rw [if_neg hlt]

/-- Witness data for C4: a low-similarity candidate and no DOI on file. -/
def c4Entry : Entry :=
  { type := "article", fields := [("title", "aaaa")], persons := [] }

def c4Ref : CrossrefRef := { title := some ["bbbb"] }

def c4Merged : Entry :=
  { type := "article", fields := [("title", "bbbb")], persons := [],
    similarity := some (similar "aaaa" "bbbb"), relevance := some 100 }

theorem claim_C4_witness :
    ∃ s stored logs, c4Merged.similarity = some s ∧
      merge_result (fun _ => none) (.triple "k" c4Entry c4Ref) =
        .ok (some ("k", stored), logs) ∧
      (stored = c4Merged ∨ ∃ fb mf,
        find_crossref_doi (fun _ => none)
          (dictGetD c4Entry.fields "doi" "") = some fb ∧
        update_entry_from_crossref fb
          { c4Entry with fields := c4Merged.fields } = .ok mf ∧
        stored = mf) ∧
      (3/4 ≤ s → stored = c4Merged ∧ logs = []) ∧
      (s < 3/4 → logs ≠ []) :=
  claim_C4 rfl
    (show update_entry_from_crossref c4Ref c4Entry = .ok c4Merged from rfl)
    (fun fb h => absurd h
      (by simp [find_crossref_doi, c4Entry, dictGetD, dictGet]))

/-- Witness data for C10: a candidate record with no title key. -/
def c10Entry : Entry :=
  { type := "article", fields := [("title", "t")], persons := [] }

theorem claim_C10_witness :
    fix_bibtex (fun _ _ => LookupOutcome.found { page := some "1" })
        (fun _ => none) [("k", c10Entry)] =
      .error ("AttributeError: " ++ "similarity") :=
  claim_C10 (by decide) rfl rfl (Or.inl rfl) rfl
    (show update_entry_from_crossref { page := some "1" } c10Entry =
      .ok { type := "article",
            fields := [("title", "t"), ("pages", replaceHyphens "1")],
            persons := [], relevance := some 100 } from rfl)

/-! ## Reflexivity of the similarity measure

For identical inputs the dynamic-programming scan of `find_longest_match`
can only fire best-updates on the diagonal (an off-diagonal run always has
a diagonal twin of at least its length that the scan visits earlier), and
the two extension loops then stretch a diagonal best block to the whole
window, so the top-level call returns the full-length match and the ratio
is exactly 1.  `dv x i j` is the value the scan stores at column `j` while
processing row `i` of the self-comparison window `(0, n, 0, n)`. -/

/-- The `j2len` value at (row `i`, column `j`) of the self-comparison DP:
`newj2len[j] = j2len.get(j-1, 0) + 1` when `j` is a position of `a[i]` in
`b2j`, absent (0) otherwise. -/
def dv (x : List Char) : Nat → Nat → Nat
  | 0, j => if j ∈ b2j x (x.getD 0 ' ') ∧ j < x.length then 1 else 0
  | i + 1, j =>
    if j ∈ b2j x (x.getD (i + 1) ' ') ∧ j < x.length then
      (if 0 < j then dv x i (j - 1) else 0) + 1
    else 0

/-- The previous row seen by row `i`: all-absent for the first row. -/
def prevdv (x : List Char) (i j : Nat) : Nat :=
  if i = 0 then 0 else dv x (i - 1) j

theorem dv_eq (x : List Char) (i j : Nat) :
    dv x i j = if j ∈ b2j x (x.getD i ' ') ∧ j < x.length then
      (if 0 < j then prevdv x i (j - 1) else 0) + 1
    else 0 := by
  cases i <;> simp [dv, prevdv]

theorem mem_b2j {b : List Char} {c : Char} {j : Nat} :
    j ∈ b2j b c ↔ ¬ isPopular b c ∧ j < b.length ∧ b.getD j ' ' = c := by
  unfold b2j
  by_cases hp : isPopular b c <;>
    simp [hp, List.mem_filter, List.mem_range]

theorem b2j_sorted (b : List Char) (c : Char) :
    List.Pairwise (· < ·) (b2j b c) := by
  unfold b2j
  by_cases hp : isPopular b c
  · simp [hp]
  · simp only [hp, if_false]
    exact (List.pairwise_lt_range _).filter _

theorem dv_le_row (x : List Char) (i j : Nat) : dv x i j ≤ i + 1 := by
  induction i generalizing j with
  | zero => unfold dv; split <;> omega
  | succ i ih =>
    unfold dv; split
    · have := ih (j - 1)
      split <;> omega
    · omega

theorem dv_le_col (x : List Char) (i j : Nat) : dv x i j ≤ j + 1 := by
  induction i generalizing j with
  | zero => unfold dv; split <;> omega
  | succ i ih =>
    unfold dv; split
    · have := ih (j - 1)
      split <;> omega
    · omega

/-- Any DP value strictly below the diagonal is dominated by the diagonal
value in its own column's row (its "twin"): the matched characters are the
same characters of `x`, so the diagonal run through them is at least as
long. -/
theorem dv_le_diag_low (x : List Char) :
    ∀ i j, j ≤ i → dv x i j ≤ dv x j j := by
  intro i
  induction i with
  | zero =>
    intro j hj
    interval_cases j
    exact le_refl _
  | succ i ih =>
    intro j hj
    rcases Nat.eq_or_lt_of_le hj with rfl | hlt
    · exact le_refl _
    have hj' : j ≤ i := by omega
    rw [dv_eq x (i + 1) j]
    split
    case isFalse => exact Nat.zero_le _
    case isTrue hc =>
      obtain ⟨hmem, hjn⟩ := hc
      obtain ⟨hpop, _, hchar⟩ := mem_b2j.mp hmem
      have hmemj : j ∈ b2j x (x.getD j ' ') := by
        rw [hchar]
        exact hmem
      cases j with
      | zero =>
        have : dv x 0 0 = 1 := by
          unfold dv
          rw [if_pos ⟨hmemj, hjn⟩]
        rw [if_neg (by omega : ¬ 0 < 0)]
        omega
      | succ jj =>
        have hstep : dv x (jj + 1) (jj + 1) = dv x jj jj + 1 := by
          rw [dv_eq x (jj + 1) (jj + 1), if_pos ⟨hmemj, hjn⟩,
            if_pos (Nat.succ_pos jj)]
          simp [prevdv]
        rw [hstep]
        have hiih := ih jj (by omega)
        simp only [prevdv, if_neg (Nat.succ_ne_zero i)]
        simp only [Nat.add_sub_cancel, Nat.succ_sub_one]
        split <;> omega

/-- Any DP value strictly right of the diagonal is dominated by the
diagonal value in its own row. -/
theorem dv_le_diag_high (x : List Char) :
    ∀ i j, i ≤ j → i < x.length → dv x i j ≤ dv x i i := by
  intro i
  induction i with
  | zero =>
    intro j hj hn
    rw [dv_eq x 0 j]
    split
    case isFalse => exact Nat.zero_le _
    case isTrue hc =>
      obtain ⟨hmem, hjn⟩ := hc
      obtain ⟨hpop, _, hchar⟩ := mem_b2j.mp hmem
      have hmem0 : (0 : Nat) ∈ b2j x (x.getD 0 ' ') :=
        mem_b2j.mpr ⟨hpop, hn, rfl⟩
      have : dv x 0 0 = 1 := by
        unfold dv
        rw [if_pos ⟨hmem0, hn⟩]
      have hp0 : prevdv x 0 (j - 1) = 0 := by simp [prevdv]
      rw [hp0]
      split <;> omega
  | succ i ih =>
    intro j hj hn
    rw [dv_eq x (i + 1) j]
    split
    case isFalse => exact Nat.zero_le _
    case isTrue hc =>
      obtain ⟨hmem, hjn⟩ := hc
      obtain ⟨hpop, _, hchar⟩ := mem_b2j.mp hmem
      have hmemd : (i + 1) ∈ b2j x (x.getD (i + 1) ' ') :=
        mem_b2j.mpr ⟨hpop, hn, rfl⟩
      have hstep : dv x (i + 1) (i + 1) = dv x i i + 1 := by
        rw [dv_eq x (i + 1) (i + 1), if_pos ⟨hmemd, hn⟩,
          if_pos (Nat.succ_pos i)]
        simp [prevdv]
      rw [hstep, if_pos (by omega : 0 < j)]
      simp only [prevdv, if_neg (Nat.succ_ne_zero i), Nat.add_sub_cancel]
      have := ih (j - 1) (by omega) (by omega)
      omega

/-- Invariant of the inner scan loop on the self-comparison window: the
running best block stays diagonal (an off-diagonal candidate is always
dominated by a previously seen diagonal twin, so it never fires the
`k > bestsize` update), stays within the processed rows, and dominates
every DP value seen so far; the built `newj2len` is `dv` restricted to the
processed prefix of the column list. -/
theorem flmInner_self {x : List Char} {i : Nat} (hi : i < x.length) :
    ∀ (js pre : List Nat), b2j x (x.getD i ' ') = pre ++ js →
    ∀ (jold jnew : Nat → Nat) (best : FlmBest),
    (∀ jj, jold jj = prevdv x i jj) →
    (∀ jj, jnew jj = if jj ∈ pre then dv x i jj else 0) →
    best.besti = best.bestj →
    best.besti + best.bestsize ≤ i + 1 →
    (∀ i' < i, ∀ jj, dv x i' jj ≤ best.bestsize) →
    (∀ jj ∈ pre, dv x i jj ≤ best.bestsize) →
    (∀ jj, (flmInner 0 x.length i jold js jnew best).1 jj =
        if jj ∈ pre ++ js then dv x i jj else 0) ∧
    (flmInner 0 x.length i jold js jnew best).2.besti =
      (flmInner 0 x.length i jold js jnew best).2.bestj ∧
    (flmInner 0 x.length i jold js jnew best).2.besti +
      (flmInner 0 x.length i jold js jnew best).2.bestsize ≤ i + 1 ∧
    (∀ i' < i, ∀ jj, dv x i' jj ≤
      (flmInner 0 x.length i jold js jnew best).2.bestsize) ∧
    (∀ jj ∈ pre ++ js, dv x i jj ≤
      (flmInner 0 x.length i jold js jnew best).2.bestsize) := by
  intro js
  induction js with
  | nil =>
    intro pre hsplit jold jnew best hold hnew hdiag hbnd hm1 hm2
    simp only [flmInner, List.append_nil]
    exact ⟨hnew, hdiag, hbnd, hm1, hm2⟩
  | cons j js ih =>
    intro pre hsplit jold jnew best hold hnew hdiag hbnd hm1 hm2
    have hmemj : j ∈ b2j x (x.getD i ' ') := by rw [hsplit]; simp
    obtain ⟨hpop, hjn, hchar⟩ := mem_b2j.mp hmemj
    have hdvj : dv x i j = (if 0 < j then prevdv x i (j - 1) else 0) + 1 := by
      rw [dv_eq x i j, if_pos (show _ ∧ _ from ⟨hmemj, hjn⟩)]
    have hk : (if j = 0 then 0 else jold (j - 1)) + 1 = dv x i j := by
      rw [hdvj]
      by_cases hj0 : j = 0
      · rw [if_pos hj0, if_neg (by omega : ¬ 0 < j)]
      · rw [if_neg hj0, if_pos (by omega : 0 < j), hold]
    simp only [flmInner, if_neg (Nat.not_lt_zero j),
      if_neg (by omega : ¬ x.length ≤ j)]
    rw [hk]
    have hsplit' : b2j x (x.getD i ' ') = (pre ++ [j]) ++ js := by
      rw [hsplit, List.append_assoc, List.singleton_append]
    have hnew' : ∀ jj, (fun xx => if xx = j then dv x i j else jnew xx) jj =
        if jj ∈ pre ++ [j] then dv x i jj else 0 := by
      intro jj
      by_cases hjj : jj = j
      · subst hjj; simp
      · simp only [if_neg hjj, hnew jj, List.mem_append,
          List.mem_singleton, hjj, or_false, if_false]
    by_cases hfire : best.bestsize < dv x i j
    · -- the update fires: it must be on the diagonal
      have hji : j = i := by
        rcases Nat.lt_trichotomy j i with hlt | heq | hgt
        · have h1 : dv x i j ≤ dv x j j := dv_le_diag_low x i j (by omega)
          have h2 : dv x j j ≤ best.bestsize := hm1 j hlt j
          omega
        · exact heq
        · have h1 : dv x i j ≤ dv x i i := dv_le_diag_high x i j (by omega) hi
          have hmemi : i ∈ b2j x (x.getD i ' ') := mem_b2j.mpr ⟨hpop, hi, rfl⟩
          have hsort := b2j_sorted x (x.getD i ' ')
          rw [hsplit] at hsort
          have hipre : i ∈ pre := by
            rcases List.mem_append.mp (by rw [← hsplit]; exact hmemi) with
              hin | hin
            · exact hin
            · rcases List.mem_cons.mp hin with rfl | hin
              · omega
              · have := (List.pairwise_append.mp hsort).2.1
                have hj_lt := (List.pairwise_cons.mp this).1 i hin
                omega
          have h2 : dv x i i ≤ best.bestsize := hm2 i hipre
          omega
      subst hji
      rw [if_pos hfire]
      have hdvle : dv x j j ≤ j + 1 := dv_le_row x j j
      obtain ⟨c1, c2, c3, c4, c5⟩ := ih (pre ++ [j]) hsplit'
        jold _ ⟨j + 1 - dv x j j, j + 1 - dv x j j, dv x j j⟩ hold hnew'
        rfl (by simp only []; omega)
        (fun i' hi' jj => by
          have := hm1 i' hi' jj
          simp only []
          omega)
        (fun jj hjj => by
          simp only []
          rcases List.mem_append.mp hjj with hin | hin
          · have := hm2 jj hin
            omega
          · rcases List.mem_singleton.mp hin with rfl
            exact le_refl _)
      rw [List.append_assoc, List.singleton_append] at c1 c5
      exact ⟨c1, c2, c3, c4, c5⟩
    · -- no update: the new value is dominated by the current best
      rw [if_neg hfire]
      obtain ⟨c1, c2, c3, c4, c5⟩ := ih (pre ++ [j]) hsplit'
        jold _ best hold hnew' hdiag hbnd hm1
        (fun jj hjj => by
          rcases List.mem_append.mp hjj with hin | hin
          · exact hm2 jj hin
          · rcases List.mem_singleton.mp hin with rfl
            omega)
      rw [List.append_assoc, List.singleton_append] at c1 c5
      exact ⟨c1, c2, c3, c4, c5⟩

/-- Invariant of the outer scan loop on the self-comparison window: after
all rows, the best block is diagonal and lies inside the window. -/
theorem flmOuter_self {x : List Char} :
    ∀ (t i : Nat), i + t = x.length →
    ∀ (jold : Nat → Nat) (best : FlmBest),
    (∀ jj, jold jj = prevdv x i jj) →
    best.besti = best.bestj →
    best.besti + best.bestsize ≤ i →
    (∀ i' < i, ∀ jj, dv x i' jj ≤ best.bestsize) →
    (flmOuter x (b2j x) 0 x.length (List.range' i t) jold best).besti =
      (flmOuter x (b2j x) 0 x.length (List.range' i t) jold best).bestj ∧
    (flmOuter x (b2j x) 0 x.length (List.range' i t) jold best).besti +
      (flmOuter x (b2j x) 0 x.length (List.range' i t) jold best).bestsize ≤
      x.length := by
  intro t
  induction t with
  | zero =>
    intro i hit jold best hold hdiag hbnd hm1
    simp only [List.range', flmOuter]
    exact ⟨hdiag, by omega⟩
  | succ t ih =>
    intro i hit jold best hold hdiag hbnd hm1
    rw [List.range'_succ i t 1]
    simp only [flmOuter]
    have hi : i < x.length := by omega
    obtain ⟨c1, c2, c3, c4, c5⟩ := flmInner_self hi
      (b2j x (x.getD i ' ')) [] rfl jold (fun _ => 0) best hold
      (fun jj => by simp) hdiag (by omega) hm1 (fun jj hjj => absurd hjj
        (List.not_mem_nil jj))
    refine ih (i + 1) (by omega) _ _ ?_ c2 c3 ?_
    · intro jj
      rw [c1 jj]
      simp only [List.nil_append, prevdv, if_neg (Nat.succ_ne_zero i),
        Nat.add_sub_cancel]
      by_cases hm : jj ∈ b2j x (x.getD i ' ')
      · rw [if_pos hm]
      · rw [if_neg hm, dv_eq]
        rw [if_neg (fun hc => hm hc.1)]
    · intro i' hi' jj
      rcases Nat.lt_or_ge i' i with hlt | hge
      · exact c4 i' hlt jj
      · have hieq : i' = i := by omega
        subst hieq
        by_cases hm : jj ∈ b2j x (x.getD i' ' ')
        · exact c5 jj (by simpa using hm)
        · rw [dv_eq, if_neg (fun hc => hm hc.1)]
          exact Nat.zero_le _

/-- The backward extension loop on identical strings moves a diagonal
block all the way to the start of the window (the character comparison is
between a position of `x` and itself). -/
theorem extendBwd_diag_self (x : List Char) :
    ∀ d s, extendBwd x x 0 0 d d d s = (0, 0, s + d) := by
  intro d
  induction d with
  | zero => intro s; rfl
  | succ d ih =>
    intro s
    show extendBwd x x 0 0 (d + 1) (d + 1) (d + 1) s = _
    unfold extendBwd
    rw [if_pos ⟨Nat.succ_pos d, Nat.succ_pos d, rfl⟩]
    simp only [Nat.add_sub_cancel]
    rw [ih (s + 1), show s + 1 + d = s + (d + 1) from by omega]

/-- The forward extension loop on identical strings grows a block starting
at the window origin to the full window. -/
theorem extendFwd_diag_self (x : List Char) :
    ∀ fuel bs, bs ≤ x.length → x.length ≤ bs + fuel →
    extendFwd x x x.length x.length 0 0 fuel bs = x.length := by
  intro fuel
  induction fuel with
  | zero =>
    intro bs h1 h2
    have : bs = x.length := by omega
    subst this
    rfl
  | succ fuel ih =>
    intro bs h1 h2
    unfold extendFwd
    by_cases heq : bs = x.length
    · subst heq
      rw [if_neg (fun hcon => absurd
        (hcon.1 : 0 + x.length < x.length) (by omega))]
    · rw [if_pos ⟨by omega, by omega, rfl⟩]
      exact ih (bs + 1) (by omega) (by omega)

/-- On identical strings, `find_longest_match` over the whole window
returns the whole string as the single best block. -/
theorem flm_self (x : List Char) :
    find_longest_match x x (b2j x) 0 x.length 0 x.length =
      (0, 0, x.length) := by
  obtain ⟨hdiag, hbnd⟩ := @flmOuter_self x x.length 0 (by omega) (fun _ => 0)
    ⟨0, 0, 0⟩ (fun jj => by simp [prevdv]) rfl (by simp)
    (fun i' hi' jj => absurd hi' (Nat.not_lt_zero i'))
  simp only [find_longest_match, Nat.sub_zero]
  rw [← hdiag, extendBwd_diag_self]
  simp only []
  rw [extendFwd_diag_self x x.length
    ((flmOuter x (b2j x) 0 x.length (List.range' 0 x.length) (fun _ => 0)
      ⟨0, 0, 0⟩).bestsize +
     (flmOuter x (b2j x) 0 x.length (List.range' 0 x.length) (fun _ => 0)
      ⟨0, 0, 0⟩).besti) (by omega) (by omega)]

/-- On identical strings the matching blocks cover everything. -/
theorem matchingSum_self (x : List Char) (fuel : Nat) :
    matchingSum x x (b2j x) (fuel + 1) 0 x.length 0 x.length = x.length := by
  simp only [matchingSum, flm_self x]
  by_cases hn : x.length = 0
  · rw [if_pos hn]; omega
  · rw [if_neg hn]
    rw [if_neg (by omega : ¬ ((0:Nat) < 0 ∧ (0:Nat) < 0)),
      if_neg (by omega : ¬ (0 + x.length < x.length ∧
        0 + x.length < x.length))]
    omega

/-- The ratio of any character list with itself is exactly 1. -/
theorem ratioQ_self (x : List Char) : ratioQ x x = 1 := by
  simp only [ratioQ]
  by_cases hn : x.length + x.length = 0
  · rw [if_pos hn]
  · rw [if_neg hn, matchingSum_self]
    have hx : x.length ≠ 0 := by omega
    have hq : ((x.length : ℚ) + x.length) ≠ 0 := by
      have : (0:ℚ) < (x.length : ℚ) := by exact_mod_cast Nat.pos_of_ne_zero hx
      positivity
    field_simp
    ring

/-- Evaluate `ratioQ` from a computed matching total. -/
theorem ratioQ_eval {a b : List Char} (la lb M : Nat)
    (hla : a.length = la) (hlb : b.length = lb)
    (h : matchingSum a b (b2j b) (la + lb + 1) 0 la 0 lb = M)
    (hn : ¬ (la + lb = 0)) :
    ratioQ a b = (2 * M : ℚ) / ((la : ℚ) + (lb : ℚ)) := by
  simp only [ratioQ, hla, hlb, h, if_neg hn]

/-- The greedy matcher keeps the block that completes first in scan order;
for "zxabcd" against "cdwzvab" it picks "ab" and then still finds "z" in
the left-over windows: 3 matched characters. -/
theorem similar_asym1 : similar "zxabcd" "cdwzvab" = 6/13 := by
  unfold similar
  rw [show "zxabcd".data.map Char.toLower = "zxabcd".data from by decide,
      show "cdwzvab".data.map Char.toLower = "cdwzvab".data from by decide,
      ratioQ_eval 6 7 3 (by decide) (by decide) (by decide) (by decide)]
  norm_num

/-- In the opposite direction the matcher picks "cd" first, whose
left-over windows contain no further match: only 2 matched characters. -/
theorem similar_asym2 : similar "cdwzvab" "zxabcd" = 4/13 := by
  unfold similar
  rw [show "cdwzvab".data.map Char.toLower = "cdwzvab".data from by decide,
      show "zxabcd".data.map Char.toLower = "zxabcd".data from by decide,
      ratioQ_eval 7 6 2 (by decide) (by decide) (by decide) (by decide)]
  norm_num

/-- C2 (counterexample to the claim as stated): `similar` is NOT
symmetric — the greedy block choice of `SequenceMatcher` depends on the
argument order, and at this concrete pair the two directions give 6/13
and 4/13. -/
theorem claim_C2_counterexample :
    similar "zxabcd" "cdwzvab" ≠ similar "cdwzvab" "zxabcd" := by
  rw [similar_asym1, similar_asym2]
  norm_num

/-- C2 (amended): `similar a a = 1` for every string `a` (in particular
every non-empty one, with or without case normalization), but the measure
is not symmetric in general: there is a concrete pair of strings on which
the two argument orders give different ratios. -/
theorem claim_C2 :
    (∀ a : String, similar a a = 1) ∧
    similar "zxabcd" "cdwzvab" ≠ similar "cdwzvab" "zxabcd" := by
  constructor
  · intro a
    exact ratioQ_self _
  · rw [similar_asym1, similar_asym2]
    norm_num

end Fixbibtex
